import Mathlib

/-!
Verification of the snapshot bot (src/snapshot.py).

This file gives a shallow embedding of the two engines of the program:

* the paginated holder fetch loop of `SnapshotCog.snapshot`
  (page requests, consecutive-error budget of 5, record cap, quantity
  parsing with Python `float`, truncation with `int` at the summary and
  CSV boundary);

* the Google-Sheets registry layer (`sheets_call` retry wrapper,
  `_get_all_values` read cache with the `bindings` exemption,
  `_find_row_by_id` / `_upsert_wallet`, the bindings registry used by
  `/register_wallet`, and the wallet-hub buttons with
  `AUTO_ENROLL_FROM_MASTER_ON_ANY_BUTTON`).

Remote services are modelled as response sequences (for the HTTP API) and
as an explicit store state (for the spreadsheet).  Machine reals appear
only through Python `float`, modelled as correctly rounded binary64 on
exact rationals (`pyFloat`).
-/

set_option allowUnsafeReducibility true in
attribute [semireducible] Rat.mul Rat.add Rat.sub Rat.inv

namespace SnapshotBot

/-! ## Python numeric primitives -/

/-- Round a rational to the nearest integer, ties to even
(the rounding used by IEEE-754 binary64). -/
def roundHalfEven (x : ℚ) : ℤ :=
  if x - ⌊x⌋ < 1 / 2 then ⌊x⌋
  else if 1 / 2 < x - ⌊x⌋ then ⌊x⌋ + 1
  else if ⌊x⌋ % 2 = 0 then ⌊x⌋ else ⌊x⌋ + 1

/-- Number of binary digits, with explicit fuel so that the kernel can
evaluate it (the first argument is the fuel). -/
def bitLenAux : ℕ → ℕ → ℕ
  | 0, _ => 0
  | fuel + 1, n => if n = 0 then 0 else bitLenAux fuel (n / 2) + 1

/-- Number of binary digits of a natural number. -/
def bitLen (n : ℕ) : ℕ := bitLenAux n n

/-- `2 ^ e` as a rational, for an integer exponent. -/
def pow2z (e : ℤ) : ℚ :=
  if 0 ≤ e then ((2 ^ e.toNat : ℕ) : ℚ) else 1 / ((2 ^ (-e).toNat : ℕ) : ℚ)

/-- `⌊log₂ |q|⌋` of a nonzero rational, computed from the bit lengths of
numerator and denominator with a one-step correction. -/
def floorLog2 (q : ℚ) : ℤ :=
  if 0 ≤ (bitLen q.num.natAbs : ℤ) - (bitLen q.den : ℤ) then
    if 2 ^ ((bitLen q.num.natAbs : ℤ) - (bitLen q.den : ℤ)).toNat * q.den ≤ q.num.natAbs then
      (bitLen q.num.natAbs : ℤ) - (bitLen q.den : ℤ)
    else (bitLen q.num.natAbs : ℤ) - (bitLen q.den : ℤ) - 1
  else
    if q.den ≤ q.num.natAbs * 2 ^ (-((bitLen q.num.natAbs : ℤ) - (bitLen q.den : ℤ))).toNat then
      (bitLen q.num.natAbs : ℤ) - (bitLen q.den : ℤ)
    else (bitLen q.num.natAbs : ℤ) - (bitLen q.den : ℤ) - 1

/-- Model of CPython `float(...)` applied to the exact rational value of a
decimal numeric string: round to the nearest binary64 value (53-bit
significand, round half to even).  Sub-normal and overflowing magnitudes
are outside the range exercised by the program and are not modelled. -/
def pyFloat (q : ℚ) : ℚ :=
  if q = 0 then 0
  else ((roundHalfEven (q * pow2z (52 - floorLog2 q)) : ℤ) : ℚ) * pow2z (floorLog2 q - 52)

/-- Model of CPython `int(...)` on a float value: truncation toward zero. -/
def truncQ (q : ℚ) : ℤ := if q < 0 then -⌊-q⌋ else ⌊q⌋

/-- Model of CPython `sum(...)` over a list of floats: a left fold whose
every partial sum is rounded back to binary64. -/
def fsum (l : List ℚ) : ℚ := l.foldl (fun a q => pyFloat (a + q)) 0

/-! ## The paginated fetch loop (`SnapshotCog.snapshot`, lines 239-261)

One remote answer per HTTP request, in request order:
`httpError` is a non-200 status, `apiError` is a 200 answer whose JSON
`status` field is not `"1"`, and `ok l` is a successful answer whose
`result` list is `l`.  A holder record carries the exact rational value
denoted by the API quantity string; the loop parses it with `pyFloat`,
exactly where the source calls `float(holder["TokenHolderQuantity"])`. -/

structure HolderRec where
  address : String
  quantity : ℚ
deriving DecidableEq

inductive Response where
  | httpError : Response
  | apiError : Response
  | ok : List HolderRec → Response
deriving DecidableEq

/-- An answer that takes one of the two error branches of the loop body. -/
def Response.isFail : Response → Bool
  | .httpError => true
  | .apiError => true
  | .ok _ => false

/-- The records carried by an answer (none for the error branches). -/
def okRecords : Response → List HolderRec
  | .ok l => l
  | .httpError => []
  | .apiError => []

/-- `(holder["TokenHolderAddress"], float(holder["TokenHolderQuantity"]))`. -/
def parseHolder (h : HolderRec) : String × ℚ := (h.address, pyFloat h.quantity)

/-- The loop variables `page`, `error_count`, `all_holders`. -/
structure LoopState where
  page : ℕ
  errors : ℕ
  acc : List (String × ℚ)
deriving DecidableEq

/-- `page = 1`, `error_count = 0`, `all_holders = []`. -/
def initState : LoopState := ⟨1, 0, []⟩

/-- The inner `for holder in result_list` loop: append each parsed record
and break as soon as `len(all_holders) >= max_holders`. -/
def appendCap (maxH : ℕ) (acc : List (String × ℚ)) : List HolderRec → List (String × ℚ)
  | [] => acc
  | h :: t =>
    if maxH ≤ (acc ++ [parseHolder h]).length then acc ++ [parseHolder h]
    else appendCap maxH (acc ++ [parseHolder h]) t

/-- Which `break` of the loop fired.  `errorCap` and `recordCap` are the
truncated exits of the specification, `emptyPage` and `shortPage` the
natural end-of-data exits; `fuelOut` marks exhaustion of the fuel of the
embedding, never of the program. -/
inductive StopReason where
  | errorCap : StopReason
  | emptyPage : StopReason
  | recordCap : StopReason
  | shortPage : StopReason
  | fuelOut : StopReason
deriving DecidableEq

/-- Outcome of one iteration of the `while True` body: either continue
with a new state after a `time.sleep` of the given duration, or break
with the final record list. -/
inductive StepRes where
  | cont : LoopState → ℚ → StepRes
  | stop : List (String × ℚ) → StopReason → StepRes

/-- One iteration of the `while True` body on one remote answer.
Failures increment `error_count`, break at 5, otherwise sleep 0.5 s and
retry the same page; successes reset `error_count`, break on an empty
`result`, then append records under the cap and break on cap or short
page, else advance the page after a 0.5 s inter-page sleep. -/
def fetchStep (offset maxH : ℕ) (s : LoopState) (r : Response) : StepRes :=
  match r with
  | .httpError =>
    if 5 ≤ s.errors + 1 then .stop s.acc .errorCap
    else .cont ⟨s.page, s.errors + 1, s.acc⟩ (1 / 2)
  | .apiError =>
    if 5 ≤ s.errors + 1 then .stop s.acc .errorCap
    else .cont ⟨s.page, s.errors + 1, s.acc⟩ (1 / 2)
  | .ok result =>
    if result.isEmpty then .stop s.acc .emptyPage
    else
      if maxH ≤ (appendCap maxH s.acc result).length then
        .stop (appendCap maxH s.acc result) .recordCap
      else if result.length < offset then
        .stop (appendCap maxH s.acc result) .shortPage
      else .cont ⟨s.page + 1, 0, appendCap maxH s.acc result⟩ (1 / 2)

/-- Observable outcome of a fetch run: the accumulated records, the page
number of every request in request order, the sleep before each
continuation, and which break ended the loop. -/
structure FetchResult where
  holders : List (String × ℚ)
  reqs : List ℕ
  waits : List ℚ
  stop : StopReason
deriving DecidableEq

/-- The `while True` loop, consuming remote answer `resp k` at the k-th
request; `fuel` only bounds the unrolling of the embedding. -/
def fetchAux (resp : ℕ → Response) (offset maxH : ℕ) : ℕ → ℕ → LoopState → FetchResult
  | 0, _, s => ⟨s.acc, [], [], .fuelOut⟩
  | fuel + 1, k, s =>
    match fetchStep offset maxH s (resp k) with
    | .stop acc r => ⟨acc, [s.page], [], r⟩
    | .cont s2 w =>
      let rest := fetchAux resp offset maxH fuel (k + 1) s2
      ⟨rest.holders, s.page :: rest.reqs, w :: rest.waits, rest.stop⟩

/-- The whole fetch phase of `/snapshot`, from the initial loop state.
The shipped constants are `offset = 100` and `maxH = 1000`; they enter
the loop only as the initial values of local variables, so the loop is
stated for arbitrary values. -/
def snapshotFetch (resp : ℕ → Response) (offset maxH fuel : ℕ) : FetchResult :=
  fetchAux resp offset maxH fuel 0 initState

/-- Concatenation of the parsed records of answers `resp k, …,
resp (k+n-1)` — everything a run consuming those answers was offered. -/
def okJoinFrom (resp : ℕ → Response) : ℕ → ℕ → List (String × ℚ)
  | _, 0 => []
  | k, n + 1 => (okRecords (resp k)).map parseHolder ++ okJoinFrom resp (k + 1) n

/-- Same concatenation but with the raw (exact decimal) quantities,
before the `float` parse. -/
def rawJoinFrom (resp : ℕ → Response) : ℕ → ℕ → List (String × ℚ)
  | _, 0 => []
  | k, n + 1 => (okRecords (resp k)).map (fun h => (h.address, h.quantity)) ++ rawJoinFrom resp (k + 1) n

/-- `total_supply = int(sum(q for _, q in all_holders))` (line 263). -/
def totalSupply (R : FetchResult) : ℤ := truncQ (fsum (R.holders.map Prod.snd))

/-- The CSV payload: header row then `[address, str(int(q))]` per record
in encounter order (lines 267-269). -/
def csvRows (R : FetchResult) : List (List String) :=
  ["TokenHolderAddress", "TokenHolderQuantity"] :: R.holders.map (fun p => [p.1, toString (truncQ p.2)])

/-! ## The sheets layer

The spreadsheet is a store state: the list of existing worksheet titles,
the grid contents per title, and the module-level `_values_cache`.
`sheets_call` is modelled separately (see `sheetsCallAux`); here its
successful effect is applied directly. -/

structure StoreState where
  titles : List String
  sheets : String → List (List String)
  cache : String → Option (List (List String))

/-- Overwrite the rows of one sheet. -/
def setSheet (st : StoreState) (t : String) (v : List (List String)) : StoreState :=
  { st with sheets := fun x => if x = t then v else st.sheets x }

/-- `_values_cache[(t, "all")] = v`. -/
def cacheInsert (st : StoreState) (t : String) (v : List (List String)) : StoreState :=
  { st with cache := fun x => if x = t then some v else st.cache x }

/-- `_values_cache.pop((t, "all"), None)`. -/
def cachePop (st : StoreState) (t : String) : StoreState :=
  { st with cache := fun x => if x = t then none else st.cache x }

/-- `_get_all_values` (lines 104-114): the `bindings` sheet is always read
fresh and never cached; every other sheet is served from the cache when
present, else fetched and cached. -/
def getAllValues (st : StoreState) (t : String) : List (List String) × StoreState :=
  if t = "bindings" then (st.sheets t, st)
  else
    match st.cache t with
    | some v => (v, st)
    | none => (st.sheets t, cacheInsert st t (st.sheets t))

/-- `len(row) >= 2 and row[1] == user_id`. -/
def rowMatchesId (uid : String) (r : List String) : Bool :=
  decide (2 ≤ r.length) && (r.getD 1 "" == uid)

/-- The scan of `_find_row_by_id`: first matching row with its 1-based
index (`enumerate(values, start=1)`). -/
def findRowAux (uid : String) : List (List String) → ℕ → Option (ℕ × List String)
  | [], _ => none
  | r :: rs, i => if rowMatchesId uid r then some (i, r) else findRowAux uid rs (i + 1)

/-- `_find_row_by_id` (lines 116-124): force-drop the cache entry for this
sheet, re-read, and scan for the user id. -/
def findRowById (st : StoreState) (t uid : String) : Option (ℕ × List String) × StoreState :=
  (findRowAux uid (getAllValues (cachePop st t) t).1 1, (getAllValues (cachePop st t) t).2)

/-- `_lookup_wallet_in_sheet` (lines 126-130): `(row[0], row[2])` when a
row was found and has at least 3 columns, else `(None, None)`. -/
def lookupWalletInSheet (st : StoreState) (t uid : String) :
    (Option String × Option String) × StoreState :=
  match (findRowById st t uid).1 with
  | some (_, r) =>
    if 3 ≤ r.length then ((some (r.getD 0 ""), some (r.getD 2 "")), (findRowById st t uid).2)
    else ((none, none), (findRowById st t uid).2)
  | none => ((none, none), (findRowById st t uid).2)

/-- The result of a lookup depends only on the rows of the sheet
(`_find_row_by_id` always re-reads before scanning); this pure form is
used to state hypotheses. -/
def lookupRows (rows : List (List String)) (uid : String) : Option String × Option String :=
  match findRowAux uid rows 1 with
  | some (_, r) => if 3 ≤ r.length then (some (r.getD 0 ""), some (r.getD 2 "")) else (none, none)
  | none => (none, none)

/-- Pad a row with empty cells up to `n` columns (the grid behind a
worksheet: a cell write beyond the current row length lands in a padded
cell). -/
def padRow (r : List String) (n : ℕ) : List String := r ++ List.replicate (n - r.length) ""

/-- `ws.update_cell(idx, col, v)` restricted to one row (1-based column). -/
def setRowCell (r : List String) (col : ℕ) (v : String) : List String :=
  (padRow r col).set (col - 1) v

/-- Pad the grid with empty rows up to `n` rows. -/
def padRows (rows : List (List String)) (n : ℕ) : List (List String) :=
  rows ++ List.replicate (n - rows.length) ([] : List String)

/-- `ws.update_cell(idx, col, v)` on the rows of a sheet (1-based row and
column). -/
def setCellRows (rows : List (List String)) (idx col : ℕ) (v : String) : List (List String) :=
  (padRows rows idx).set (idx - 1) (setRowCell ((padRows rows idx).getD (idx - 1) []) col v)

/-- `ws.update_cell` at the store level. -/
def updateCell (st : StoreState) (t : String) (idx col : ℕ) (v : String) : StoreState :=
  setSheet st t (setCellRows (st.sheets t) idx col v)

/-- `ws.append_row(row)` (no cache invalidation by itself — the callers
pop the cache where the source does). -/
def appendRow (st : StoreState) (t : String) (row : List String) : StoreState :=
  setSheet st t (st.sheets t ++ [row])

/-- `_upsert_wallet` (lines 132-140): find the row for the user id; if
found overwrite its three cells in place by row index, else append
`[user_name, user_id, wallet]`; finally drop this sheet's cache entry. -/
def upsertWallet (st : StoreState) (t userName uid wallet : String) : StoreState :=
  match (findRowById st t uid).1 with
  | some (idx, _) =>
    cachePop
      (updateCell (updateCell (updateCell (findRowById st t uid).2 t idx 1 userName) t idx 2 uid) t idx 3 wallet)
      t
  | none => cachePop (appendRow (findRowById st t uid).2 t [userName, uid, wallet]) t

/-- The pure effect of `_upsert_wallet` on the rows of its sheet. -/
def upsertRows (rows : List (List String)) (userName uid wallet : String) : List (List String) :=
  match findRowAux uid rows 1 with
  | some (idx, _) =>
    setCellRows (setCellRows (setCellRows rows idx 1 userName) idx 2 uid) idx 3 wallet
  | none => rows ++ [[userName, uid, wallet]]

/-- `_get_ws(sh, t, create=True)`: worksheet handles are cached in
`_ws_cache` (irrelevant to values) and a missing sheet is created empty;
only the set of existing titles changes. -/
def ensureTitle (st : StoreState) (t : String) : StoreState :=
  if t ∈ st.titles then st else { st with titles := st.titles ++ [t] }

/-- `MASTER_SHEET = "wallet_master"`. -/
def MASTER_SHEET : String := "wallet_master"

/-- `get_master_wallet` (lines 146-148). -/
def getMasterWallet (st : StoreState) (uid : String) :
    (Option String × Option String) × StoreState :=
  lookupWalletInSheet (ensureTitle st MASTER_SHEET) MASTER_SHEET uid

/-- `set_master_wallet` (lines 150-152). -/
def setMasterWallet (st : StoreState) (userName uid wallet : String) : StoreState :=
  upsertWallet (ensureTitle st MASTER_SHEET) MASTER_SHEET userName uid wallet

/-- `enroll_in_sheet_only` (lines 155-157). -/
def enrollInSheetOnly (st : StoreState) (sheetName userName uid wallet : String) : StoreState :=
  upsertWallet (ensureTitle st sheetName) sheetName userName uid wallet

/-! ## The bindings registry (lines 169-223, 488-531) -/

/-- The header row appended when the `bindings` sheet is first created. -/
def bindingsHeader : List String :=
  ["GuildID", "ChannelID", "MessageID", "SheetName", "CreatedAtISO"]

/-- `_get_bindings_ws` (lines 170-176): create the sheet with its header
row when missing (that append does not pop any cache entry — faithful to
the source, and harmless since `bindings` is never cached). -/
def getBindingsWs (st : StoreState) : StoreState :=
  if "bindings" ∈ st.titles then st
  else appendRow { st with titles := st.titles ++ ["bindings"] } "bindings" bindingsHeader

/-- `len(row) >= 4 and row[0] == str(guild_id) and row[3] == sheet_name`. -/
def bindMatches (g : ℕ) (s : String) (r : List String) : Bool :=
  decide (4 ≤ r.length) && (r.getD 0 "" == toString g) && (r.getD 3 "" == s)

/-- `_is_sheet_already_bound` (lines 178-184): always a fresh read, scan
rows past the header. -/
def isSheetAlreadyBound (st : StoreState) (g : ℕ) (s : String) : Bool × StoreState :=
  ((((getBindingsWs st).sheets "bindings").drop 1).any (bindMatches g s), getBindingsWs st)

/-- `_get_binding_record` (lines 186-197), returning the raw matching row
(whose cells 0-4 are the guild, channel, message, sheet and timestamp). -/
def getBindingRow (st : StoreState) (g : ℕ) (s : String) :
    Option (List String) × StoreState :=
  ((((getBindingsWs st).sheets "bindings").drop 1).find? (bindMatches g s), getBindingsWs st)

/-- `_add_binding` (lines 199-202): append the row and pop the (never
populated) cache entry of the bindings sheet. -/
def addBinding (st : StoreState) (g ch m : ℕ) (s now : String) : StoreState :=
  cachePop
    (appendRow (getBindingsWs st) "bindings" [toString g, toString ch, toString m, s, now])
    "bindings"

/-- `WALLET_SHEET_MAP` via `_sheet_from_button_number` (lines 66, 314-316);
`none` models the `ValueError` on an out-of-range number. -/
def sheetFromButtonNumber (n : ℕ) : Option String :=
  if n = 1 then some "wallet_log"
  else if n = 2 then some "wallet_log2"
  else if n = 3 then some "wallet_log3"
  else none

/-- Outcome of `/register_wallet` as seen by the admin. -/
inductive RegOutcome where
  | invalidButton : RegOutcome
  | duplicate : String → RegOutcome
  | recordMissing : RegOutcome
  | refreshed : String → String → RegOutcome
  | posted : String → ℕ → RegOutcome
deriving DecidableEq

/-- `WalletHub.register_wallet` (lines 488-531).  `duplicate` is the
rejected re-binding; `refreshed s m` re-installs the button view on the
already-bound message whose channel and message references are the given
strings; `posted` sends a new hub message (its id is the `newMessageId`
parameter, chosen by the chat platform) and appends the binding row with
the `now` timestamp. -/
def registerWallet (st : StoreState) (g ch n : ℕ) (editIfExists : Bool)
    (newMessageId : ℕ) (now : String) : RegOutcome × StoreState :=
  match sheetFromButtonNumber n with
  | none => (.invalidButton, st)
  | some sheetName =>
    if (isSheetAlreadyBound st g sheetName).1 && !editIfExists then
      (.duplicate sheetName, (isSheetAlreadyBound st g sheetName).2)
    else if (isSheetAlreadyBound st g sheetName).1 && editIfExists then
      match (getBindingRow (isSheetAlreadyBound st g sheetName).2 g sheetName).1 with
      | none => (.recordMissing, (getBindingRow (isSheetAlreadyBound st g sheetName).2 g sheetName).2)
      | some r =>
        (.refreshed (r.getD 1 "") (r.getD 2 ""),
         (getBindingRow (isSheetAlreadyBound st g sheetName).2 g sheetName).2)
    else
      (.posted sheetName newMessageId,
       addBinding (ensureTitle (isSheetAlreadyBound st g sheetName).2 sheetName) g ch newMessageId sheetName now)

/-! ## Wallet hub buttons (lines 365-473) -/

/-- Line 22 of the source: `True`. -/
def AUTO_ENROLL_FROM_MASTER_ON_ANY_BUTTON : Bool := true

/-- Python truthiness of an optional string field. -/
def truthyS : Option String → Bool
  | some s => !(s == "")
  | none => false

/-- Python `m_name or user_name`: the fallback replaces `None` and the
empty string. -/
def orElseName (o : Option String) (fallback : String) : String :=
  match o with
  | some s => if s = "" then fallback else s
  | none => fallback

/-- `WalletHubView._bound_sheet` via `_get_binding_by_message`
(lines 204-209, 370-374): fresh read of the bindings sheet, first row past
the header with `row[2] == str(message_id)`; `none` covers both the
missing binding (`RuntimeError`) and a matching row too short for
`row[3]` (`IndexError`) — either way the button aborts with the friendly
error message. -/
def resolveBoundSheet (st : StoreState) (messageId : ℕ) : Option String × StoreState :=
  match (((getBindingsWs st).sheets "bindings").drop 1).find?
      (fun r => decide (3 ≤ r.length) && (r.getD 2 "" == toString messageId)) with
  | some r => (if 4 ≤ r.length then some (r.getD 3 "") else none, getBindingsWs st)
  | none => (none, getBindingsWs st)

/-- `WalletHubView._maybe_auto_enroll_from_master` (lines 376-383). -/
def maybeAutoEnrollFromMaster (st : StoreState) (sheetName userName uid : String) :
    (Bool × Option String × Option String) × StoreState :=
  if !truthyS (getMasterWallet st uid).1.2 then ((false, none, none), (getMasterWallet st uid).2)
  else if !AUTO_ENROLL_FROM_MASTER_ON_ANY_BUTTON then
    ((false, (getMasterWallet st uid).1.1, (getMasterWallet st uid).1.2), (getMasterWallet st uid).2)
  else
    ((true, some (orElseName (getMasterWallet st uid).1.1 userName), (getMasterWallet st uid).1.2),
     enrollInSheetOnly (getMasterWallet st uid).2 sheetName
       (orElseName (getMasterWallet st uid).1.1 userName) uid ((getMasterWallet st uid).1.2.getD ""))

/-- Outcome of the blue `Register wallet` button. -/
inductive RegisterPressOutcome where
  | friendlyError : RegisterPressOutcome
  | alreadySubmitted : String → String → RegisterPressOutcome
  | syncedFromMaster : String → String → RegisterPressOutcome
  | modalShown : String → String → RegisterPressOutcome
deriving DecidableEq

/-- `WalletHubView.btn_register` (lines 386-409).  `modalShown s u`
means the wallet modal was opened for sheet `s` with username `u` (the
user is prompted); the other outcomes answer without prompting. -/
def btnRegister (st : StoreState) (messageId : ℕ) (userName uid : String) :
    RegisterPressOutcome × StoreState :=
  match (resolveBoundSheet st messageId).1 with
  | none => (.friendlyError, (resolveBoundSheet st messageId).2)
  | some sheetName =>
    let st2 := ensureTitle (resolveBoundSheet st messageId).2 sheetName
    let lk := lookupWalletInSheet st2 sheetName uid
    if truthyS lk.1.2 then
      (.alreadySubmitted (lk.1.1.getD "") (lk.1.2.getD ""), lk.2)
    else
      let gm := getMasterWallet lk.2 uid
      if truthyS gm.1.2 then
        (.syncedFromMaster (orElseName gm.1.1 userName) (gm.1.2.getD ""),
         enrollInSheetOnly gm.2 sheetName (orElseName gm.1.1 userName) uid (gm.1.2.getD ""))
      else (.modalShown sheetName userName, gm.2)

/-- `RegisterOrChangeWalletModal.on_submit` in register mode
(lines 342-361, `is_change=False`): strip the input, enroll in the named
sheet, then write the master record. -/
def modalSubmitRegister (st : StoreState) (sheetName userName uid rawInput : String) : StoreState :=
  setMasterWallet (enrollInSheetOnly st sheetName userName uid rawInput.trim) userName uid rawInput.trim

/-- Outcome of the green `Check wallet` button. -/
inductive CheckPressOutcome where
  | friendlyError : CheckPressOutcome
  | showWallet : String → String → CheckPressOutcome
  | enrolledFromMaster : String → String → CheckPressOutcome
  | masterRecordOnly : String → String → CheckPressOutcome
  | noWalletFound : CheckPressOutcome
deriving DecidableEq

/-- `WalletHubView.btn_check` (lines 412-439). -/
def btnCheck (st : StoreState) (messageId : ℕ) (userName uid : String) :
    CheckPressOutcome × StoreState :=
  match (resolveBoundSheet st messageId).1 with
  | none => (.friendlyError, (resolveBoundSheet st messageId).2)
  | some sheetName =>
    let st2 := ensureTitle (resolveBoundSheet st messageId).2 sheetName
    let lk := lookupWalletInSheet st2 sheetName uid
    if truthyS lk.1.2 then (.showWallet (lk.1.1.getD "") (lk.1.2.getD ""), lk.2)
    else
      let ae := maybeAutoEnrollFromMaster lk.2 sheetName userName uid
      if ae.1.1 then (.enrolledFromMaster (ae.1.2.1.getD "") (ae.1.2.2.getD ""), ae.2)
      else
        let gm := getMasterWallet ae.2 uid
        if truthyS gm.1.2 then (.masterRecordOnly (gm.1.1.getD "") (gm.1.2.getD ""), gm.2)
        else (.noWalletFound, gm.2)

/-- Outcome of the red `Change wallet` button. -/
inductive ChangePressOutcome where
  | friendlyError : ChangePressOutcome
  | confirmChange : String → String → String → ChangePressOutcome
  | masterRecordOnly : String → String → ChangePressOutcome
  | noWalletFound : ChangePressOutcome
deriving DecidableEq

/-- `WalletHubView.btn_change` (lines 442-473).  `confirmChange s w u`
is the confirmation prompt carrying the bound sheet, the current wallet
and the username handed to `ConfirmChangeView`. -/
def btnChange (st : StoreState) (messageId : ℕ) (userName uid : String) :
    ChangePressOutcome × StoreState :=
  match (resolveBoundSheet st messageId).1 with
  | none => (.friendlyError, (resolveBoundSheet st messageId).2)
  | some sheetName =>
    let st2 := ensureTitle (resolveBoundSheet st messageId).2 sheetName
    let lk := lookupWalletInSheet st2 sheetName uid
    let ae :=
      if truthyS lk.1.2 then ((lk.1.1, lk.1.2), lk.2)
      else
        if (maybeAutoEnrollFromMaster lk.2 sheetName userName uid).1.1 then
          (((maybeAutoEnrollFromMaster lk.2 sheetName userName uid).1.2.1,
            (maybeAutoEnrollFromMaster lk.2 sheetName userName uid).1.2.2),
           (maybeAutoEnrollFromMaster lk.2 sheetName userName uid).2)
        else ((lk.1.1, lk.1.2), (maybeAutoEnrollFromMaster lk.2 sheetName userName uid).2)
    if !truthyS ae.1.2 then
      let gm := getMasterWallet ae.2 uid
      if truthyS gm.1.2 then (.masterRecordOnly (gm.1.1.getD "") (gm.1.2.getD ""), gm.2)
      else (.noWalletFound, gm.2)
    else (.confirmChange sheetName (ae.1.2.getD "") (orElseName ae.1.1 userName), ae.2)

/-! ## The `sheets_call` retry wrapper (lines 73-90)

Successive invocations of the wrapped callable are modelled as a sequence
of call results, consumed in order.  `apiErr c` is a gspread `APIError`
whose response carries HTTP status `c` (or none), `otherErr` any other
exception. -/

inductive CallRes (α : Type) where
  | ok : α → CallRes α
  | apiErr : Option ℕ → CallRes α
  | otherErr : CallRes α
deriving DecidableEq

/-- `code in (429, 500, 502, 503, 504)`. -/
def retryableCode : Option ℕ → Bool
  | some c => (c == 429) || (c == 500) || (c == 502) || (c == 503) || (c == 504)
  | none => false

/-- An invocation result that the wrapper retries. -/
def isRetryableErr {α : Type} : CallRes α → Bool
  | .apiErr c => retryableCode c
  | .ok _ => false
  | .otherErr => false

/-- The exception carried out of the wrapper when it raises. -/
inductive CallErr where
  | api : Option ℕ → CallErr
  | other : CallErr
deriving DecidableEq

/-- Normal return or propagated exception of one `sheets_call`. -/
inductive CallOutcome (α : Type) where
  | value : α → CallOutcome α
  | raised : CallErr → CallOutcome α
deriving DecidableEq

/-- Observable outcome of one `sheets_call`: the returned value or the
propagated exception, the number of invocations of the wrapped callable,
and the `time.sleep` durations in order. -/
structure SheetsCallTrace (α : Type) where
  result : CallOutcome α
  calls : ℕ
  sleeps : List ℚ
deriving DecidableEq

/-- The `for attempt in range(4)` loop (`rem` iterations remaining) and,
after it, the final unguarded `return func(*args, **kwargs)` of line 90,
whose failure propagates whatever it is. -/
def sheetsCallAux {α : Type} (f : ℕ → CallRes α) : ℕ → ℕ → ℚ → List ℚ → SheetsCallTrace α
  | 0, attempt, _, sleeps =>
    match f attempt with
    | .ok a => ⟨.value a, attempt + 1, sleeps⟩
    | .apiErr c => ⟨.raised (.api c), attempt + 1, sleeps⟩
    | .otherErr => ⟨.raised .other, attempt + 1, sleeps⟩
  | rem + 1, attempt, delay, sleeps =>
    match f attempt with
    | .ok a => ⟨.value a, attempt + 1, sleeps⟩
    | .apiErr c =>
      if retryableCode c then sheetsCallAux f rem (attempt + 1) (delay * 2) (sleeps ++ [delay])
      else ⟨.raised (.api c), attempt + 1, sleeps⟩
    | .otherErr => ⟨.raised .other, attempt + 1, sleeps⟩

/-- `sheets_call(func, ...)`: `delay = 0.5`, four guarded attempts, one
final unguarded attempt. -/
def sheetsCall {α : Type} (f : ℕ → CallRes α) : SheetsCallTrace α :=
  sheetsCallAux f 4 0 (1 / 2) []

/-- The backoff schedule before the (j+1)-th attempt: 0.5 s doubling. -/
def geomSleeps (n : ℕ) : List ℚ := (List.range n).map (fun i => (1 / 2) * 2 ^ i)

/-! ## Operations over the store used by the cache claims -/

/-- The store-layer operations whose interaction with `_values_cache` the
specification describes. -/
inductive StoreOp where
  | readAll : String → StoreOp
  | findRow : String → String → StoreOp
  | upsert : String → String → String → String → StoreOp
  | bindAdd : ℕ → ℕ → ℕ → String → String → StoreOp

/-- Effect of one store operation on the store state. -/
def runOp (st : StoreState) : StoreOp → StoreState
  | .readAll t => (getAllValues st t).2
  | .findRow t uid => (findRowById st t uid).2
  | .upsert t n uid w => upsertWallet st t n uid w
  | .bindAdd g ch m s now => addBinding st g ch m s now

/-- Effect of a sequence of store operations. -/
def runOps (st : StoreState) (ops : List StoreOp) : StoreState :=
  ops.foldl runOp st

/-- The cache discipline the specification claims: no entry is ever
stale (a write would have removed it), and the bindings sheet is never
cached at all. -/
def cacheConsistent (st : StoreState) : Prop :=
  (∀ t, st.cache t = none ∨ st.cache t = some (st.sheets t)) ∧ st.cache "bindings" = none

/-- A store whose cache is empty (the state at module load). -/
def emptyStore : StoreState :=
  ⟨[], fun _ => [], fun _ => none⟩

/-- A store holding only the bindings sheet with its header row. -/
def headerStore : StoreState :=
  ⟨["bindings"], fun t => if t = "bindings" then [bindingsHeader] else [], fun _ => none⟩

/-- Store used by the C8 and C10 counterexamples: a binding of message
10 to `wallet_log`, a master record whose display name is empty, and an
empty `wallet_log`. -/
def emptyNameStore : StoreState :=
  ⟨["bindings", "wallet_master", "wallet_log"],
   fun t =>
     if t = "bindings" then [bindingsHeader, ["1", "2", "10", "wallet_log", "t0"]]
     else if t = "wallet_master" then [["", "u1", "0xAA"]]
     else [],
   fun _ => none⟩

/-- The outcome `sheets_call` yields when a given invocation of the
wrapped callable is the one whose result leaves the wrapper. -/
def outcomeOf {α : Type} : CallRes α → CallOutcome α
  | .ok a => .value a
  | .apiErr c => .raised (.api c)
  | .otherErr => .raised .other

/-- A callable whose first four invocations are rate-limited and whose
fifth succeeds. -/
def cexF : ℕ → CallRes ℕ := fun n => if n ≤ 3 then .apiErr (some 429) else .ok 7

/-! ## Lemmas: the fetch loop -/

theorem take_eq_self_of_length_lt {α : Type} {l : List α} {n : ℕ}
    (h : (l.take n).length < n) : l.take n = l := by
  rw [List.length_take] at h
  exact List.take_of_length_le (by omega)

/-- The inner append loop is `take` up to the cap of the fully appended
page, as long as the cap has not yet been reached. -/
theorem appendCap_eq_take (maxH : ℕ) :
    ∀ (l : List HolderRec) (acc : List (String × ℚ)), acc.length < maxH →
      appendCap maxH acc l = (acc ++ l.map parseHolder).take maxH := by
  intro l
  induction l with
  | nil =>
    intro acc hacc
    simp [appendCap, List.take_of_length_le (Nat.le_of_lt hacc)]
  | cons h t ih =>
    intro acc hacc
    by_cases hcap : maxH ≤ (acc ++ [parseHolder h]).length
    · have hlen : (acc ++ [parseHolder h]).length = maxH := by
        simp only [List.length_append, List.length_singleton] at hcap ⊢
        omega
      simp only [appendCap, if_pos hcap, List.map_cons]
      rw [show acc ++ parseHolder h :: t.map parseHolder
            = (acc ++ [parseHolder h]) ++ t.map parseHolder by simp,
          List.take_append_eq_append_take, hlen, List.take_of_length_le hlen.le]
      simp
    · have hlt : (acc ++ [parseHolder h]).length < maxH := lt_of_not_le hcap
      simp only [appendCap, if_neg hcap, List.map_cons]
      rw [ih (acc ++ [parseHolder h]) hlt]
      simp

/-- Unfolding of one loop iteration. -/
theorem fetchAux_succ (resp : ℕ → Response) (offset maxH fuel k : ℕ) (s : LoopState) :
    fetchAux resp offset maxH (fuel + 1) k s =
      match fetchStep offset maxH s (resp k) with
      | .stop acc r => ⟨acc, [s.page], [], r⟩
      | .cont s2 w =>
        ⟨(fetchAux resp offset maxH fuel (k + 1) s2).holders,
         s.page :: (fetchAux resp offset maxH fuel (k + 1) s2).reqs,
         w :: (fetchAux resp offset maxH fuel (k + 1) s2).waits,
         (fetchAux resp offset maxH fuel (k + 1) s2).stop⟩ := rfl

/-- A failing answer that continues the loop: same page, error counter
bumped, records untouched, 0.5 s sleep, and the counter was below the cap. -/
theorem fetchStep_fail_cont {offset maxH : ℕ} {s s2 : LoopState} {w : ℚ} {r : Response}
    (hf : r.isFail = true) (h : fetchStep offset maxH s r = .cont s2 w) :
    s2 = ⟨s.page, s.errors + 1, s.acc⟩ ∧ w = 1 / 2 ∧ s.errors + 1 ≤ 4 := by
  cases r with
  | ok l => simp [Response.isFail] at hf
  | httpError =>
    simp only [fetchStep] at h
    split_ifs at h with h5
    cases h
    exact ⟨rfl, rfl, by omega⟩
  | apiError =>
    simp only [fetchStep] at h
    split_ifs at h with h5
    cases h
    exact ⟨rfl, rfl, by omega⟩

/-- A failing answer that stops the loop: the error cap was reached and
the partial accumulation is returned. -/
theorem fetchStep_fail_stop {offset maxH : ℕ} {s : LoopState} {acc : List (String × ℚ)}
    {reason : StopReason} {r : Response}
    (hf : r.isFail = true) (h : fetchStep offset maxH s r = .stop acc reason) :
    acc = s.acc ∧ reason = .errorCap ∧ 5 ≤ s.errors + 1 := by
  cases r with
  | ok l => simp [Response.isFail] at hf
  | httpError =>
    simp only [fetchStep] at h
    split_ifs at h with h5
    cases h
    exact ⟨rfl, rfl, h5⟩
  | apiError =>
    simp only [fetchStep] at h
    split_ifs at h with h5
    cases h
    exact ⟨rfl, rfl, h5⟩

/-- A successful answer that continues the loop: next page, error counter
reset, all records of the page appended below the cap. -/
theorem fetchStep_ok_cont {offset maxH : ℕ} {s s2 : LoopState} {w : ℚ} {l : List HolderRec}
    (h : fetchStep offset maxH s (.ok l) = .cont s2 w) :
    s2 = ⟨s.page + 1, 0, appendCap maxH s.acc l⟩ ∧ w = 1 / 2 ∧ l ≠ [] ∧
      (appendCap maxH s.acc l).length < maxH ∧ offset ≤ l.length := by
  simp only [fetchStep] at h
  split_ifs at h with hemp hcap hshort
  cases h
  exact ⟨rfl, rfl, by simpa using hemp, by omega, by omega⟩

theorem fetchStep_ok_stop {offset maxH : ℕ} {s : LoopState} {acc : List (String × ℚ)}
    {reason : StopReason} {l : List HolderRec}
    (h : fetchStep offset maxH s (.ok l) = .stop acc reason) :
    (l = [] ∧ acc = s.acc ∧ reason = .emptyPage) ∨
    (l ≠ [] ∧ acc = appendCap maxH s.acc l ∧ maxH ≤ acc.length ∧ reason = .recordCap) ∨
    (l ≠ [] ∧ acc = appendCap maxH s.acc l ∧ acc.length < maxH ∧ l.length < offset ∧
      reason = .shortPage) := by
  simp only [fetchStep] at h
  split_ifs at h with hemp hcap hshort
  · cases h
    exact Or.inl ⟨by simpa using hemp, rfl, rfl⟩
  · cases h
    exact Or.inr (Or.inl ⟨by simpa using hemp, rfl, hcap, rfl⟩)
  · cases h
    exact Or.inr (Or.inr ⟨by simpa using hemp, rfl, by omega, hshort, rfl⟩)

theorem okRecords_eq_nil_of_isFail {r : Response} (h : r.isFail = true) : okRecords r = [] := by
  cases r with
  | ok l => simp [Response.isFail] at h
  | httpError => rfl
  | apiError => rfl

theorem isFail_httpError : Response.httpError.isFail = true := rfl

theorem isFail_apiError : Response.apiError.isFail = true := rfl

/-- A continuation never shrinks the page number. -/
theorem fetchStep_cont_page_le {offset maxH : ℕ} {s s2 : LoopState} {w : ℚ} {r : Response}
    (h : fetchStep offset maxH s r = .cont s2 w) : s.page ≤ s2.page := by
  cases r with
  | ok l =>
    obtain ⟨h2, -⟩ := fetchStep_ok_cont h
    rw [h2]
    exact Nat.le_succ _
  | httpError =>
    obtain ⟨h2, -, -⟩ := fetchStep_fail_cont isFail_httpError h
    rw [h2]
  | apiError =>
    obtain ⟨h2, -, -⟩ := fetchStep_fail_cont isFail_apiError h
    rw [h2]

/-- A continuation keeps the record list under the cap. -/
theorem fetchStep_cont_acc_lt {offset maxH : ℕ} {s s2 : LoopState} {w : ℚ} {r : Response}
    (hs : s.acc.length < maxH) (h : fetchStep offset maxH s r = .cont s2 w) :
    s2.acc.length < maxH := by
  cases r with
  | ok l =>
    obtain ⟨h2, -, -, hlen, -⟩ := fetchStep_ok_cont h
    rw [h2]
    exact hlen
  | httpError =>
    obtain ⟨h2, -, -⟩ := fetchStep_fail_cont isFail_httpError h
    rw [h2]
    exact hs
  | apiError =>
    obtain ⟨h2, -, -⟩ := fetchStep_fail_cont isFail_apiError h
    rw [h2]
    exact hs

/-- A continuation keeps the error counter at most 4. -/
theorem fetchStep_cont_errors_le {offset maxH : ℕ} {s s2 : LoopState} {w : ℚ} {r : Response}
    (h : fetchStep offset maxH s r = .cont s2 w) : s2.errors ≤ 4 := by
  cases r with
  | ok l =>
    obtain ⟨h2, -⟩ := fetchStep_ok_cont h
    rw [h2]
    exact Nat.zero_le _
  | httpError =>
    obtain ⟨h2, -, h4⟩ := fetchStep_fail_cont isFail_httpError h
    rw [h2]
    exact h4
  | apiError =>
    obtain ⟨h2, -, h4⟩ := fetchStep_fail_cont isFail_apiError h
    rw [h2]
    exact h4

/-- The loop breaks only through one of the four real exits. -/
theorem fetchStep_stop_ne_fuelOut {offset maxH : ℕ} {s : LoopState} {acc : List (String × ℚ)}
    {reason : StopReason} {r : Response}
    (h : fetchStep offset maxH s r = .stop acc reason) : reason ≠ .fuelOut := by
  cases r with
  | ok l =>
    rcases fetchStep_ok_stop h with ⟨-, -, hr⟩ | ⟨-, -, -, hr⟩ | ⟨-, -, -, -, hr⟩ <;> simp [hr]
  | httpError =>
    obtain ⟨-, hr, -⟩ := fetchStep_fail_stop isFail_httpError h
    simp [hr]
  | apiError =>
    obtain ⟨-, hr, -⟩ := fetchStep_fail_stop isFail_apiError h
    simp [hr]

/-- A nonempty page appended under the cap strictly grows the record list. -/
theorem appendCap_length_ge {maxH : ℕ} {l : List HolderRec} {acc : List (String × ℚ)}
    (hacc : acc.length < maxH) (hl : l ≠ [])
    (hlt : (appendCap maxH acc l).length < maxH) :
    acc.length + 1 ≤ (appendCap maxH acc l).length := by
  rw [appendCap_eq_take maxH l acc hacc, List.length_take] at hlt ⊢
  have h1 : 1 ≤ l.length := List.length_pos.mpr hl
  simp only [List.length_append, List.length_map] at hlt ⊢
  omega

/-- The accumulated list is exactly everything the consumed successful
pages offered, truncated at the record cap. -/
theorem fetchAux_holders (resp : ℕ → Response) (offset maxH : ℕ) :
    ∀ (fuel k : ℕ) (s : LoopState), s.acc.length < maxH →
      (fetchAux resp offset maxH fuel k s).holders
        = (s.acc ++ okJoinFrom resp k (fetchAux resp offset maxH fuel k s).reqs.length).take maxH := by
  intro fuel
  induction fuel with
  | zero =>
    intro k s hs
    simp [fetchAux, okJoinFrom, List.take_of_length_le (Nat.le_of_lt hs)]
  | succ fuel ih =>
    intro k s hs
    cases hr : resp k with
    | httpError =>
      by_cases h5 : 5 ≤ s.errors + 1
      · simp [fetchAux_succ, fetchStep, hr, h5, okJoinFrom, okRecords,
              List.take_of_length_le (Nat.le_of_lt hs)]
      · have hrec := ih (k + 1) ⟨s.page, s.errors + 1, s.acc⟩ hs
        simp only [fetchAux_succ, fetchStep, hr, if_neg h5, okJoinFrom, okRecords,
          List.length_cons, List.nil_append, List.map_nil]
        simpa using hrec
    | apiError =>
      by_cases h5 : 5 ≤ s.errors + 1
      · simp [fetchAux_succ, fetchStep, hr, h5, okJoinFrom, okRecords,
              List.take_of_length_le (Nat.le_of_lt hs)]
      · have hrec := ih (k + 1) ⟨s.page, s.errors + 1, s.acc⟩ hs
        simp only [fetchAux_succ, fetchStep, hr, if_neg h5, okJoinFrom, okRecords,
          List.length_cons, List.nil_append, List.map_nil]
        simpa using hrec
    | ok l =>
      by_cases hemp : l.isEmpty
      · have hl : l = [] := List.isEmpty_iff.mp hemp
        have hstep : fetchStep offset maxH s (resp k) = .stop s.acc .emptyPage := by
          rw [hr]
          simp only [fetchStep, if_pos hemp]
        rw [fetchAux_succ, hstep]
        simp [okJoinFrom, okRecords, hr, hl, List.take_of_length_le (Nat.le_of_lt hs)]
      · have hac := appendCap_eq_take maxH l s.acc hs
        by_cases hcap : maxH ≤ (appendCap maxH s.acc l).length
        · have hstep : fetchStep offset maxH s (resp k)
              = .stop (appendCap maxH s.acc l) .recordCap := by
            rw [hr]
            simp only [fetchStep, if_neg hemp, if_pos hcap]
          rw [fetchAux_succ, hstep]
          simp [okJoinFrom, okRecords, hr, hac]
        · by_cases hshort : l.length < offset
          · have hstep : fetchStep offset maxH s (resp k)
                = .stop (appendCap maxH s.acc l) .shortPage := by
              rw [hr]
              simp only [fetchStep, if_neg hemp, if_neg hcap, if_pos hshort]
            rw [fetchAux_succ, hstep]
            simp [okJoinFrom, okRecords, hr, hac]
          · have hlt : (appendCap maxH s.acc l).length < maxH := by omega
            have hfull : appendCap maxH s.acc l = s.acc ++ l.map parseHolder := by
              rw [hac]
              exact take_eq_self_of_length_lt (by rw [← hac]; exact hlt)
            have hstep : fetchStep offset maxH s (resp k)
                = .cont ⟨s.page + 1, 0, appendCap maxH s.acc l⟩ (1 / 2) := by
              rw [hr]
              simp only [fetchStep, if_neg hemp, if_neg hcap, if_neg hshort]
            have hrec := ih (k + 1) ⟨s.page + 1, 0, appendCap maxH s.acc l⟩ hlt
            rw [fetchAux_succ, hstep]
            simp only [List.length_cons, okJoinFrom, okRecords, hr]
            rw [hrec]
            dsimp only
            rw [hfull, List.append_assoc]

/-- When the loop stops at the record cap the record list has exactly
`maxH` entries. -/
theorem fetchAux_recordCap_length (resp : ℕ → Response) (offset maxH : ℕ) :
    ∀ (fuel k : ℕ) (s : LoopState), s.acc.length < maxH →
      (fetchAux resp offset maxH fuel k s).stop = .recordCap →
      (fetchAux resp offset maxH fuel k s).holders.length = maxH := by
  intro fuel
  induction fuel with
  | zero =>
    intro k s _ hstop
    simp [fetchAux] at hstop
  | succ fuel ih =>
    intro k s hs hstop
    rw [fetchAux_succ] at hstop ⊢
    cases hstep : fetchStep offset maxH s (resp k) with
    | stop acc reason =>
      rw [hstep] at hstop
      dsimp only at hstop ⊢
      subst hstop
      cases hr : resp k with
      | httpError =>
        rw [hr] at hstep
        obtain ⟨-, hre, -⟩ := fetchStep_fail_stop isFail_httpError hstep
        simp at hre
      | apiError =>
        rw [hr] at hstep
        obtain ⟨-, hre, -⟩ := fetchStep_fail_stop isFail_apiError hstep
        simp at hre
      | ok l =>
        rw [hr] at hstep
        rcases fetchStep_ok_stop hstep with ⟨-, -, hre⟩ | ⟨hl, ha, hcap, -⟩ | ⟨-, -, -, -, hre⟩
        · simp at hre
        · have := appendCap_eq_take maxH l s.acc hs
          rw [ha, this, List.length_take]
          rw [ha, this, List.length_take] at hcap
          omega
        · simp at hre
    | cont s2 w =>
      rw [hstep] at hstop
      dsimp only at hstop ⊢
      exact ih (k + 1) s2 (fetchStep_cont_acc_lt hs hstep) hstop

/-- When the loop stops for any reason other than the record cap, the
record list is still strictly below the cap. -/
theorem fetchAux_holders_length_lt (resp : ℕ → Response) (offset maxH : ℕ) :
    ∀ (fuel k : ℕ) (s : LoopState), s.acc.length < maxH →
      (fetchAux resp offset maxH fuel k s).stop ≠ .recordCap →
      (fetchAux resp offset maxH fuel k s).holders.length < maxH := by
  intro fuel
  induction fuel with
  | zero =>
    intro k s hs _
    simpa [fetchAux] using hs
  | succ fuel ih =>
    intro k s hs hstop
    rw [fetchAux_succ] at hstop ⊢
    cases hstep : fetchStep offset maxH s (resp k) with
    | stop acc reason =>
      rw [hstep] at hstop
      dsimp only at hstop ⊢
      cases hr : resp k with
      | httpError =>
        rw [hr] at hstep
        obtain ⟨ha, -, -⟩ := fetchStep_fail_stop isFail_httpError hstep
        rw [ha]
        exact hs
      | apiError =>
        rw [hr] at hstep
        obtain ⟨ha, -, -⟩ := fetchStep_fail_stop isFail_apiError hstep
        rw [ha]
        exact hs
      | ok l =>
        rw [hr] at hstep
        rcases fetchStep_ok_stop hstep with ⟨-, ha, -⟩ | ⟨-, -, -, hre⟩ | ⟨-, -, hlen, -, -⟩
        · rw [ha]
          exact hs
        · exact absurd hre hstop
        · exact hlen
    | cont s2 w =>
      rw [hstep] at hstop
      dsimp only at hstop ⊢
      exact ih (k + 1) s2 (fetchStep_cont_acc_lt hs hstep) hstop

/-- Fuel never runs out once it exceeds `5 * maxH + 4`: every iteration
either eats into the 5-error budget or grows the record list toward the
cap (the termination argument of the specification). -/
theorem fetchAux_ne_fuelOut (resp : ℕ → Response) (offset maxH : ℕ) :
    ∀ (fuel k : ℕ) (s : LoopState), s.errors ≤ 4 → s.acc.length < maxH →
      5 * (maxH - s.acc.length) + (4 - s.errors) < fuel →
      (fetchAux resp offset maxH fuel k s).stop ≠ .fuelOut := by
  intro fuel
  induction fuel with
  | zero =>
    intro k s he hs hm
    omega
  | succ fuel ih =>
    intro k s he hs hm
    rw [fetchAux_succ]
    cases hstep : fetchStep offset maxH s (resp k) with
    | stop acc reason =>
      dsimp only
      exact fetchStep_stop_ne_fuelOut hstep
    | cont s2 w =>
      dsimp only
      apply ih (k + 1) s2 (fetchStep_cont_errors_le hstep) (fetchStep_cont_acc_lt hs hstep)
      cases hr : resp k with
      | httpError =>
        rw [hr] at hstep
        obtain ⟨h2, -, h4⟩ := fetchStep_fail_cont isFail_httpError hstep
        subst h2
        dsimp only
        omega
      | apiError =>
        rw [hr] at hstep
        obtain ⟨h2, -, h4⟩ := fetchStep_fail_cont isFail_apiError hstep
        subst h2
        dsimp only
        omega
      | ok l =>
        rw [hr] at hstep
        obtain ⟨h2, -, hne, hlen, -⟩ := fetchStep_ok_cont hstep
        subst h2
        dsimp only at hlen ⊢
        have hge := appendCap_length_ge hs hne hlen
        omega

/-- The loop issues no request at all exactly when it has no fuel. -/
theorem fetchAux_reqs_eq_nil_iff (resp : ℕ → Response) (offset maxH fuel k : ℕ) (s : LoopState) :
    (fetchAux resp offset maxH fuel k s).reqs = [] ↔ fuel = 0 := by
  cases fuel with
  | zero => simp [fetchAux]
  | succ fuel =>
    rw [fetchAux_succ]
    cases hstep : fetchStep offset maxH s (resp k) <;> simp

/-- The first request of a run is for the page of the entry state. -/
theorem fetchAux_reqs_head (resp : ℕ → Response) (offset maxH fuel k : ℕ) (s : LoopState)
    (hf : 0 < fuel) : (fetchAux resp offset maxH fuel k s).reqs.head? = some s.page := by
  cases fuel with
  | zero => omega
  | succ fuel =>
    rw [fetchAux_succ]
    cases hstep : fetchStep offset maxH s (resp k) <;> simp

/-- Every requested page lies between the entry page and the last
requested page: pages only move forward, and nothing is requested after
the request on which the loop stopped. -/
theorem fetchAux_reqs_bounds (resp : ℕ → Response) (offset maxH : ℕ) :
    ∀ (fuel k : ℕ) (s : LoopState) (lp : ℕ),
      (fetchAux resp offset maxH fuel k s).reqs.getLast? = some lp →
      ∀ p ∈ (fetchAux resp offset maxH fuel k s).reqs, s.page ≤ p ∧ p ≤ lp := by
  intro fuel
  induction fuel with
  | zero =>
    intro k s lp hlast
    simp [fetchAux] at hlast
  | succ fuel ih =>
    intro k s lp hlast p hp
    rw [fetchAux_succ] at hlast hp
    cases hstep : fetchStep offset maxH s (resp k) with
    | stop acc reason =>
      rw [hstep] at hlast hp
      dsimp only at hlast hp
      simp only [List.getLast?_singleton, Option.some.injEq] at hlast
      simp only [List.mem_singleton] at hp
      subst hlast
      subst hp
      exact ⟨le_refl _, le_refl _⟩
    | cont s2 w =>
      rw [hstep] at hlast hp
      dsimp only at hlast hp
      simp only [List.mem_cons] at hp
      have hpage : s.page ≤ s2.page := fetchStep_cont_page_le hstep
      cases hnil : (fetchAux resp offset maxH fuel (k + 1) s2).reqs with
      | nil =>
        rw [hnil] at hlast hp
        simp only [List.getLast?_singleton, Option.some.injEq] at hlast
        subst hlast
        rcases hp with hp | hp
        · subst hp
          exact ⟨le_refl _, le_refl _⟩
        · simp at hp
      | cons q qs =>
        rw [hnil] at hlast
        rw [List.getLast?_cons_cons] at hlast
        have hfz : fuel ≠ 0 := by
          intro h0
          subst h0
          simp [fetchAux] at hnil
        have hhead := fetchAux_reqs_head resp offset maxH fuel (k + 1) s2 (Nat.pos_of_ne_zero hfz)
        rw [hnil] at hhead
        simp only [List.head?_cons, Option.some.injEq] at hhead
        have hmem2 : s2.page ∈ (fetchAux resp offset maxH fuel (k + 1) s2).reqs := by
          rw [hnil, ← hhead]
          exact List.mem_cons_self _ _
        have hb := ih (k + 1) s2 lp (by rw [hnil]; exact hlast)
        rcases hp with hp | hp
        · subst hp
          have := (hb s2.page hmem2).2
          exact ⟨le_refl _, le_trans hpage this⟩
        · have := hb p hp
          exact ⟨le_trans hpage this.1, this.2⟩

/-- After a failed request the loop, if it continues at all, re-requests
the very same page after a fixed 0.5 s backoff. -/
theorem fetchAux_retry_same_page (resp : ℕ → Response) (offset maxH : ℕ) :
    ∀ (fuel k : ℕ) (s : LoopState) (j : ℕ), (resp (k + j)).isFail = true →
      j + 1 < (fetchAux resp offset maxH fuel k s).reqs.length →
      (fetchAux resp offset maxH fuel k s).reqs[j + 1]?
          = (fetchAux resp offset maxH fuel k s).reqs[j]? ∧
      (fetchAux resp offset maxH fuel k s).waits[j]? = some (1 / 2) := by
  intro fuel
  induction fuel with
  | zero =>
    intro k s j hf hlen
    simp [fetchAux] at hlen
  | succ fuel ih =>
    intro k s j hf hlen
    rw [fetchAux_succ] at hlen ⊢
    cases hstep : fetchStep offset maxH s (resp k) with
    | stop acc reason =>
      rw [hstep] at hlen
      simp at hlen
    | cont s2 w =>
      rw [hstep] at hlen
      dsimp only at hlen ⊢
      cases j with
      | zero =>
        rw [Nat.add_zero] at hf
        obtain ⟨h2, hw, -⟩ := fetchStep_fail_cont hf hstep
        have hfz : 0 < fuel := by
          rcases Nat.eq_zero_or_pos fuel with h0 | h0
          · subst h0
            simp [fetchAux] at hlen
          · exact h0
        have hhead := fetchAux_reqs_head resp offset maxH fuel (k + 1) s2 hfz
        constructor
        · rw [List.getElem?_cons_succ, List.getElem?_cons_zero]
          cases hq : (fetchAux resp offset maxH fuel (k + 1) s2).reqs with
          | nil =>
            rw [hq] at hhead
            simp at hhead
          | cons q qs =>
            rw [hq] at hhead
            simp only [List.head?_cons, Option.some.injEq] at hhead
            rw [List.getElem?_cons_zero, hhead, h2]
        · rw [List.getElem?_cons_zero, hw]
      | succ j =>
        have hf2 : (resp ((k + 1) + j)).isFail = true := by
          have : (k + 1) + j = k + (j + 1) := by omega
          rw [this]
          exact hf
        have hlen2 : j + 1 < (fetchAux resp offset maxH fuel (k + 1) s2).reqs.length := by
          simp only [List.length_cons] at hlen
          omega
        have := ih (k + 1) s2 j hf2 hlen2
        rw [List.getElem?_cons_succ, List.getElem?_cons_succ, List.getElem?_cons_succ]
        exact this

/-- If the run ends at the error cap then either the whole run was a
pure failure streak completing the entry counter to 5, or the run made
at least 5 requests and the last five answers all failed (so on each
success before them the counter was reset). -/
theorem fetchAux_errorCap_tail (resp : ℕ → Response) (offset maxH : ℕ) :
    ∀ (fuel k : ℕ) (s : LoopState), s.errors ≤ 4 →
      (fetchAux resp offset maxH fuel k s).stop = .errorCap →
      ((fetchAux resp offset maxH fuel k s).reqs.length = 5 - s.errors ∧
        ∀ i < (fetchAux resp offset maxH fuel k s).reqs.length, (resp (k + i)).isFail = true) ∨
      (5 ≤ (fetchAux resp offset maxH fuel k s).reqs.length ∧
        ∀ i < (fetchAux resp offset maxH fuel k s).reqs.length,
          (fetchAux resp offset maxH fuel k s).reqs.length ≤ i + 5 →
          (resp (k + i)).isFail = true) := by
  intro fuel
  induction fuel with
  | zero =>
    intro k s he hstop
    simp [fetchAux] at hstop
  | succ fuel ih =>
    intro k s he hstop
    rw [fetchAux_succ] at hstop ⊢
    cases hstep : fetchStep offset maxH s (resp k) with
    | stop acc reason =>
      rw [hstep] at hstop
      dsimp only at hstop ⊢
      subst hstop
      have hfail : (resp k).isFail = true := by
        cases hr : resp k with
        | httpError => rfl
        | apiError => rfl
        | ok l =>
          rw [hr] at hstep
          rcases fetchStep_ok_stop hstep with ⟨-, -, hre⟩ | ⟨-, -, -, hre⟩ | ⟨-, -, -, -, hre⟩ <;>
            simp at hre
      have h5 : 5 ≤ s.errors + 1 := by
        cases hr : resp k with
        | httpError =>
          rw [hr] at hstep
          exact (fetchStep_fail_stop isFail_httpError hstep).2.2
        | apiError =>
          rw [hr] at hstep
          exact (fetchStep_fail_stop isFail_apiError hstep).2.2
        | ok l =>
          rw [hr] at hfail
          simp [Response.isFail] at hfail
      left
      refine ⟨by simp; omega, ?_⟩
      intro i hi
      simp only [List.length_singleton] at hi
      have : i = 0 := by omega
      subst this
      simpa using hfail
    | cont s2 w =>
      rw [hstep] at hstop
      dsimp only at hstop ⊢
      have hrec := ih (k + 1) s2 (fetchStep_cont_errors_le hstep) hstop
      by_cases hfk : (resp k).isFail = true
      · obtain ⟨h2, -, h4⟩ := fetchStep_fail_cont hfk hstep
        have herr : s2.errors = s.errors + 1 := by rw [h2]
        rw [herr] at hrec
        rcases hrec with ⟨hlen, hall⟩ | ⟨hlen, htail⟩
        · left
          constructor
          · simp only [List.length_cons, hlen]
            omega
          · intro i hi
            simp only [List.length_cons] at hi
            cases i with
            | zero => simpa using hfk
            | succ i =>
              have hki : k + (i + 1) = (k + 1) + i := by omega
              rw [hki]
              exact hall i (by omega)
        · right
          constructor
          · simp only [List.length_cons]
            omega
          · intro i hi hcond
            simp only [List.length_cons] at hi hcond
            cases i with
            | zero => simpa using hfk
            | succ i =>
              have hki : k + (i + 1) = (k + 1) + i := by omega
              rw [hki]
              exact htail i (by omega) (by omega)
      · have hok : ∃ l, resp k = .ok l := by
          cases hr : resp k with
          | httpError => rw [hr] at hfk; simp [Response.isFail] at hfk
          | apiError => rw [hr] at hfk; simp [Response.isFail] at hfk
          | ok l => exact ⟨l, rfl⟩
        obtain ⟨l, hr⟩ := hok
        rw [hr] at hstep
        obtain ⟨h2, -, -, -, -⟩ := fetchStep_ok_cont hstep
        have herr : s2.errors = 0 := by rw [h2]
        rw [herr] at hrec
        right
        rcases hrec with ⟨hlen, hall⟩ | ⟨hlen, htail⟩
        · constructor
          · simp only [List.length_cons, hlen]
            omega
          · intro i hi hcond
            simp only [List.length_cons, hlen] at hi hcond
            cases i with
            | zero => omega
            | succ i =>
              have hki : k + (i + 1) = (k + 1) + i := by omega
              rw [hki]
              exact hall i (by omega)
        · constructor
          · simp only [List.length_cons]
            omega
          · intro i hi hcond
            simp only [List.length_cons] at hi hcond
            cases i with
            | zero => omega
            | succ i =>
              have hki : k + (i + 1) = (k + 1) + i := by omega
              rw [hki]
              exact htail i (by omega) (by omega)

/-- A fresh streak of `5 - errors` consecutive failures stops the loop at
exactly that request, through the error-cap exit, yielding the records
accumulated so far. -/
theorem fetchAux_streak_stops (resp : ℕ → Response) (offset maxH : ℕ) :
    ∀ (fuel k : ℕ) (s : LoopState), s.errors ≤ 4 →
      (∀ i < 5 - s.errors, (resp (k + i)).isFail = true) →
      5 - s.errors ≤ fuel →
      (fetchAux resp offset maxH fuel k s).reqs.length = 5 - s.errors ∧
      (fetchAux resp offset maxH fuel k s).stop = .errorCap ∧
      (fetchAux resp offset maxH fuel k s).holders = s.acc := by
  intro fuel
  induction fuel with
  | zero =>
    intro k s he _ hfuel
    omega
  | succ fuel ih =>
    intro k s he hstreak hfuel
    have hf0 : (resp k).isFail = true := by
      have := hstreak 0 (by omega)
      simpa using this
    rw [fetchAux_succ]
    cases hstep : fetchStep offset maxH s (resp k) with
    | stop acc reason =>
      obtain ⟨ha, hre, h5⟩ := by
        cases hr : resp k with
        | httpError => rw [hr] at hstep; exact fetchStep_fail_stop isFail_httpError hstep
        | apiError => rw [hr] at hstep; exact fetchStep_fail_stop isFail_apiError hstep
        | ok l => rw [hr] at hf0; simp [Response.isFail] at hf0
      subst ha
      subst hre
      dsimp only
      refine ⟨?_, rfl, rfl⟩
      simp only [List.length_singleton]
      omega
    | cont s2 w =>
      obtain ⟨h2, -, h4⟩ := by
        cases hr : resp k with
        | httpError => rw [hr] at hstep; exact fetchStep_fail_cont isFail_httpError hstep
        | apiError => rw [hr] at hstep; exact fetchStep_fail_cont isFail_apiError hstep
        | ok l => rw [hr] at hf0; simp [Response.isFail] at hf0
      subst h2
      dsimp only at *
      have hstreak2 : ∀ i < 5 - (s.errors + 1), (resp ((k + 1) + i)).isFail = true := by
        intro i hi
        have : (k + 1) + i = k + (i + 1) := by omega
        rw [this]
        exact hstreak (i + 1) (by omega)
      obtain ⟨hl, hs, hh⟩ := ih (k + 1) ⟨s.page, s.errors + 1, s.acc⟩ (by dsimp only; omega)
        hstreak2 (by dsimp only; omega)
      refine ⟨?_, hs, hh⟩
      simp only [List.length_cons, hl]
      omega

/-- The parsed join is the float-parse of the raw join: the loop stores
each quantity as `pyFloat` of its exact decimal value, nothing else. -/
theorem okJoinFrom_eq_map_raw (resp : ℕ → Response) :
    ∀ (n k : ℕ), okJoinFrom resp k n
      = (rawJoinFrom resp k n).map (fun p => (p.1, pyFloat p.2)) := by
  intro n
  induction n with
  | zero =>
    intro k
    rfl
  | succ n ih =>
    intro k
    simp only [okJoinFrom, rawJoinFrom, List.map_append, List.map_map, ih (k + 1)]
    congr 1

/-! ## Claim theorems: the fetch loop -/

/-- The scenario of the specification: pages 1 and 2 return 100 records,
page 3 returns 80, later requests (never issued) would fail. -/
def scenarioResp : ℕ → Response := fun k =>
  if k = 0 then .ok (List.replicate 100 ⟨"a", 0⟩)
  else if k = 1 then .ok (List.replicate 100 ⟨"a", 0⟩)
  else if k = 2 then .ok (List.replicate 80 ⟨"a", 0⟩)
  else .httpError

/-- A remote that always fails. -/
def allFailResp : ℕ → Response := fun _ => .httpError

/-- A remote whose first page holds one record of quantity 2^53 + 1 and
whose next page is empty. -/
def bigQtyResp : ℕ → Response := fun k =>
  if k = 0 then .ok [⟨"w", 9007199254740993⟩] else .ok []

/-- A remote that immediately reports end of data. -/
def emptyResp : ℕ → Response := fun _ => .ok []

/-- C1: whenever the fetch loop stops because accumulation reached the
record cap, the resulting record list has exactly `maxH` entries, and no
request was issued for any page after the one in which the cap was
reached (every requested page is at most the last requested page, and
the run ends on that request).  The shipped constants are
`offset = 100`, `maxH = 1000`; the loop is proved for all values, and
the witness instantiates the scenario `pageSize = 100`,
`maxRecords = 250` with pages of 100, 100 and 80 records. -/
theorem fetch_record_cap_exact (resp : ℕ → Response) (offset maxH fuel : ℕ)
    (hmax : 1 ≤ maxH)
    (hstop : (snapshotFetch resp offset maxH fuel).stop = .recordCap) :
    (snapshotFetch resp offset maxH fuel).holders.length = maxH ∧
    ∃ lp, (snapshotFetch resp offset maxH fuel).reqs.getLast? = some lp ∧
      ∀ p ∈ (snapshotFetch resp offset maxH fuel).reqs, p ≤ lp := by
  constructor
  · exact fetchAux_recordCap_length resp offset maxH fuel 0 initState
      (by simpa [initState] using hmax) hstop
  · have hne : (snapshotFetch resp offset maxH fuel).reqs ≠ [] := by
      intro h0
      rw [snapshotFetch, fetchAux_reqs_eq_nil_iff] at h0
      subst h0
      simp [snapshotFetch, fetchAux] at hstop
    obtain ⟨lp, hlp⟩ := Option.isSome_iff_exists.mp (List.getLast?_isSome.mpr hne)
    exact ⟨lp, hlp, fun p hp => (fetchAux_reqs_bounds resp offset maxH fuel 0 initState lp hlp p hp).2⟩

/-- Witness for C1: the scenario of the specification.  Pages of
100, 100, 80 records with `pageSize = 100`, `maxRecords = 250`: the run
stops at the record cap, keeps exactly 250 records, requests exactly
pages 1, 2, 3 and never page 4. -/
theorem fetch_record_cap_exact_witness :
    (snapshotFetch scenarioResp 100 250 50).stop = .recordCap ∧
    (snapshotFetch scenarioResp 100 250 50).holders.length = 250 ∧
    (snapshotFetch scenarioResp 100 250 50).reqs = [1, 2, 3] ∧
    4 ∉ (snapshotFetch scenarioResp 100 250 50).reqs := by
  have h := fetch_record_cap_exact scenarioResp 100 250 50 (by omega) (by decide)
  exact ⟨by decide, h.1, by decide, by decide⟩

/-- C2: failure handling of the fetch loop.  (1) After any failed
request (non-200 status or missing/unsuccessful JSON status), if the
loop issues another request at all it is for the same page number after
a fixed 0.5 s backoff.  (2) If the run ends through the error cap, at
least 5 requests were made and the last five answers all failed — in
particular the counter was reset by every earlier success.  (3) Five
consecutive failures from the start stop the loop at exactly the fifth
request, through the error-cap exit, and the loop returns (rather than
raising) the partial accumulated result — the truncated exit of the
specification. -/
theorem fetch_error_retry_policy (resp : ℕ → Response) (offset maxH fuel : ℕ) :
    (∀ j, (resp j).isFail = true →
      j + 1 < (snapshotFetch resp offset maxH fuel).reqs.length →
      (snapshotFetch resp offset maxH fuel).reqs[j + 1]?
          = (snapshotFetch resp offset maxH fuel).reqs[j]? ∧
      (snapshotFetch resp offset maxH fuel).waits[j]? = some (1 / 2)) ∧
    ((snapshotFetch resp offset maxH fuel).stop = .errorCap →
      5 ≤ (snapshotFetch resp offset maxH fuel).reqs.length ∧
      ∀ i < (snapshotFetch resp offset maxH fuel).reqs.length,
        (snapshotFetch resp offset maxH fuel).reqs.length ≤ i + 5 →
        (resp i).isFail = true) ∧
    ((∀ i < 5, (resp i).isFail = true) → 5 ≤ fuel →
      (snapshotFetch resp offset maxH fuel).reqs.length = 5 ∧
      (snapshotFetch resp offset maxH fuel).stop = .errorCap ∧
      (snapshotFetch resp offset maxH fuel).holders = []) := by
  refine ⟨?_, ?_, ?_⟩
  · intro j hf hlen
    have := fetchAux_retry_same_page resp offset maxH fuel 0 initState j (by simpa using hf) hlen
    simpa using this
  · intro hstop
    have h0 : initState.errors ≤ 4 := by simp [initState]
    rcases fetchAux_errorCap_tail resp offset maxH fuel 0 initState h0 hstop with
      ⟨hlen, hall⟩ | ⟨hlen, htail⟩
    · have he0 : initState.errors = 0 := rfl
      rw [he0] at hlen
      constructor
      · show 5 ≤ (fetchAux resp offset maxH fuel 0 initState).reqs.length
        omega
      · intro i hi _
        simpa using hall i hi
    · refine ⟨hlen, ?_⟩
      intro i hi hcond
      simpa using htail i hi hcond
  · intro hstreak hfuel
    have := fetchAux_streak_stops resp offset maxH fuel 0 initState (by simp [initState])
      (by simpa [initState] using hstreak) (by simpa [initState] using hfuel)
    simpa [initState] using this

/-- Witness for C2: a remote that always answers with a non-200 status.
The run makes exactly 5 requests, all for page 1, sleeps 0.5 s after
each of the first four, returns no records, and ends through the
error cap. -/
theorem fetch_error_retry_policy_witness :
    (snapshotFetch allFailResp 100 1000 10).reqs.length = 5 ∧
    (snapshotFetch allFailResp 100 1000 10).stop = .errorCap ∧
    (snapshotFetch allFailResp 100 1000 10).holders = [] ∧
    (snapshotFetch allFailResp 100 1000 10).reqs = [1, 1, 1, 1, 1] ∧
    (snapshotFetch allFailResp 100 1000 10).waits = [1 / 2, 1 / 2, 1 / 2, 1 / 2] := by
  have h := (fetch_error_retry_policy allFailResp 100 1000 10).2.2
    (fun i _ => rfl) (by omega)
  exact ⟨h.1, h.2.1, h.2.2, by decide, by decide⟩

/-- C3: (1) the fetch loop terminates in finite time for every sequence
of remote answers — `5 * maxH + 5` iterations always suffice, because
every iteration either eats into the 5-consecutive-error budget or
strictly grows the record list toward the cap; (2) the accumulated
records are exactly the concatenation of all records of the consumed
successful pages, truncated only at the record cap, so no page's records
are silently dropped on success; (3) when the cap is not the exit, the
accumulation is the whole concatenation; (4) no page beyond the one on
which the run stopped is ever requested. -/
theorem fetch_terminates_no_silent_drop (resp : ℕ → Response) (offset maxH fuel : ℕ)
    (hmax : 1 ≤ maxH) :
    (5 * maxH + 5 ≤ fuel → (snapshotFetch resp offset maxH fuel).stop ≠ .fuelOut) ∧
    (snapshotFetch resp offset maxH fuel).holders
      = (okJoinFrom resp 0 (snapshotFetch resp offset maxH fuel).reqs.length).take maxH ∧
    ((snapshotFetch resp offset maxH fuel).stop ≠ .recordCap →
      (snapshotFetch resp offset maxH fuel).holders
        = okJoinFrom resp 0 (snapshotFetch resp offset maxH fuel).reqs.length) ∧
    (∀ lp, (snapshotFetch resp offset maxH fuel).reqs.getLast? = some lp →
      ∀ p ∈ (snapshotFetch resp offset maxH fuel).reqs, p ≤ lp) := by
  have hinit : initState.acc.length < maxH := by simpa [initState] using hmax
  have hjoin := fetchAux_holders resp offset maxH fuel 0 initState hinit
  refine ⟨?_, ?_, ?_, ?_⟩
  · intro hfuel
    apply fetchAux_ne_fuelOut resp offset maxH fuel 0 initState (by simp [initState]) hinit
    simp only [initState]
    omega
  · simpa [initState] using hjoin
  · intro hstop
    have hlt := fetchAux_holders_length_lt resp offset maxH fuel 0 initState hinit hstop
    have h2 : (snapshotFetch resp offset maxH fuel).holders
        = (okJoinFrom resp 0 (snapshotFetch resp offset maxH fuel).reqs.length).take maxH := by
      simpa [initState] using hjoin
    rw [h2]
    exact take_eq_self_of_length_lt (by rw [← h2]; exact hlt)
  · intro lp hlp p hp
    exact (fetchAux_reqs_bounds resp offset maxH fuel 0 initState lp hlp p hp).2

/-- Witness for C3: a remote that reports end of data at once.  With
`maxH = 3` and the uniform fuel bound `5 * 3 + 5 = 20` the run stops on
its first request through the natural empty-page exit with no records. -/
theorem fetch_terminates_no_silent_drop_witness :
    (snapshotFetch emptyResp 100 3 20).stop ≠ .fuelOut ∧
    (snapshotFetch emptyResp 100 3 20).holders
      = okJoinFrom emptyResp 0 (snapshotFetch emptyResp 100 3 20).reqs.length ∧
    (snapshotFetch emptyResp 100 3 20).stop = .emptyPage ∧
    (snapshotFetch emptyResp 100 3 20).reqs = [1] := by
  have h := fetch_terminates_no_silent_drop emptyResp 100 3 20 (by omega)
  exact ⟨h.1 (by omega), h.2.2.1 (by decide), by decide, by decide⟩

/-- C4 counterexample: the total reported by the snapshot operation is
not the exact decimal sum of the record quantities as carried by the
API's numeric strings.  With a single holder whose quantity string
denotes 2^53 + 1, the code's `float` parse rounds to 2^53 before any
sum is formed: the reported total is 9007199254740992 while the exact
decimal sum (truncated toward zero, as the summary would) is
9007199254740993. -/
theorem fetch_total_not_exact_decimal_cex :
    totalSupply (snapshotFetch bigQtyResp 100 1000 10) = 9007199254740992 ∧
    truncQ (((rawJoinFrom bigQtyResp 0
        (snapshotFetch bigQtyResp 100 1000 10).reqs.length).map Prod.snd).foldl (fun a b => a + b) 0)
      = 9007199254740993 ∧
    (9007199254740992 : ℤ) ≠ 9007199254740993 := by
  refine ⟨by decide, by decide, by decide⟩

/-- C4 (amended): quantities are parsed with binary64 `float`, not exact
decimals: every accumulated record carries `pyFloat` of the exact
decimal value of its quantity string, untouched by any integer
truncation; the reported total is the truncation, applied once at the
summary boundary, of the float-accumulated sum of those stored
quantities; and the CSV export truncates per row without feeding back
into the stored records.  The total can therefore differ from the exact
decimal sum (see the counterexample), but truncation never enters the
running total. -/
theorem fetch_total_float_sum (resp : ℕ → Response) (offset maxH fuel : ℕ)
    (hmax : 1 ≤ maxH) :
    (snapshotFetch resp offset maxH fuel).holders
      = ((rawJoinFrom resp 0 (snapshotFetch resp offset maxH fuel).reqs.length).map
          (fun p => (p.1, pyFloat p.2))).take maxH ∧
    totalSupply (snapshotFetch resp offset maxH fuel)
      = truncQ (fsum ((snapshotFetch resp offset maxH fuel).holders.map Prod.snd)) ∧
    csvRows (snapshotFetch resp offset maxH fuel)
      = ["TokenHolderAddress", "TokenHolderQuantity"]
        :: (snapshotFetch resp offset maxH fuel).holders.map
            (fun p => [p.1, toString (truncQ p.2)]) := by
  refine ⟨?_, rfl, rfl⟩
  rw [← okJoinFrom_eq_map_raw]
  have := fetchAux_holders resp offset maxH fuel 0 initState (by simpa [initState] using hmax)
  simpa [initState] using this

/-- Witness for C4 (amended) at the counterexample input: the stored
record is the float-parse of the raw quantity and the total is its
truncation. -/
theorem fetch_total_float_sum_witness :
    (snapshotFetch bigQtyResp 100 1000 10).holders
      = ((rawJoinFrom bigQtyResp 0 (snapshotFetch bigQtyResp 100 1000 10).reqs.length).map
          (fun p => (p.1, pyFloat p.2))).take 1000 ∧
    totalSupply (snapshotFetch bigQtyResp 100 1000 10)
      = truncQ (fsum ((snapshotFetch bigQtyResp 100 1000 10).holders.map Prod.snd)) := by
  have h := fetch_total_float_sum bigQtyResp 100 1000 10 (by omega)
  exact ⟨h.1, h.2.1⟩

/-! ## Lemmas: the sheets store and its cache -/

theorem cachePop_sheets (st : StoreState) (t : String) : (cachePop st t).sheets = st.sheets := rfl

theorem cachePop_titles (st : StoreState) (t : String) : (cachePop st t).titles = st.titles := rfl

theorem cacheInsert_sheets (st : StoreState) (t : String) (v : List (List String)) :
    (cacheInsert st t v).sheets = st.sheets := rfl

theorem ensureTitle_sheets (st : StoreState) (t : String) :
    (ensureTitle st t).sheets = st.sheets := by
  rw [ensureTitle]
  split_ifs <;> rfl

theorem ensureTitle_cache (st : StoreState) (t : String) :
    (ensureTitle st t).cache = st.cache := by
  rw [ensureTitle]
  split_ifs <;> rfl

theorem mem_ensureTitle (st : StoreState) (t x : String) (h : x ∈ st.titles) :
    x ∈ (ensureTitle st t).titles := by
  rw [ensureTitle]
  split_ifs
  · exact h
  · exact List.mem_append_left _ h

/-- A full-scope read of the bindings sheet always returns the live
store content, whatever the cache holds. -/
theorem getAllValues_bindings_fst (st : StoreState) :
    (getAllValues st "bindings").1 = st.sheets "bindings" := rfl

theorem getAllValues_snd_sheets (st : StoreState) (t : String) :
    ((getAllValues st t).2).sheets = st.sheets := by
  rw [getAllValues]
  split_ifs with hb
  · rfl
  · cases hc : st.cache t <;> rfl

theorem getAllValues_snd_titles (st : StoreState) (t : String) :
    ((getAllValues st t).2).titles = st.titles := by
  rw [getAllValues]
  split_ifs with hb
  · rfl
  · cases hc : st.cache t <;> rfl

/-- After a full-scope read of any non-bindings sheet the cache holds
exactly the returned value. -/
theorem getAllValues_caches (st : StoreState) (t : String) (h : t ≠ "bindings") :
    ((getAllValues st t).2).cache t = some (getAllValues st t).1 := by
  rw [getAllValues, if_neg h]
  cases hc : st.cache t with
  | some v => simpa using hc
  | none => simp [cacheInsert]

theorem findRowById_eq (st : StoreState) (t uid : String) :
    findRowById st t uid
      = (findRowAux uid (st.sheets t) 1,
         if t = "bindings" then cachePop st t
         else cacheInsert (cachePop st t) t (st.sheets t)) := by
  rw [findRowById, getAllValues]
  split_ifs with hb
  · rfl
  · have hc : (cachePop st t).cache t = none := by simp [cachePop]
    rw [hc]
    rfl

theorem findRowById_fst (st : StoreState) (t uid : String) :
    (findRowById st t uid).1 = findRowAux uid (st.sheets t) 1 := by
  rw [findRowById_eq]

theorem findRowById_snd_sheets (st : StoreState) (t uid : String) :
    ((findRowById st t uid).2).sheets = st.sheets := by
  rw [findRowById_eq]
  split_ifs <;> rfl

theorem findRowById_snd_titles (st : StoreState) (t uid : String) :
    ((findRowById st t uid).2).titles = st.titles := by
  rw [findRowById_eq]
  split_ifs <;> rfl

theorem findRowById_snd_cache (st : StoreState) (t uid x : String) :
    ((findRowById st t uid).2).cache x
      = if x = t then (if t = "bindings" then none else some (st.sheets t))
        else st.cache x := by
  rw [findRowById_eq]
  dsimp only
  by_cases hb : t = "bindings"
  · rw [if_pos hb]
    by_cases hx : x = t
    · subst hx
      rw [if_pos rfl, if_pos hb]
      simp [cachePop]
    · rw [if_neg hx]
      simp [cachePop, hx]
  · rw [if_neg hb]
    by_cases hx : x = t
    · subst hx
      rw [if_pos rfl, if_neg hb]
      simp [cacheInsert]
    · rw [if_neg hx]
      simp [cacheInsert, cachePop, hx]

theorem updateCell_sheets (st : StoreState) (t : String) (idx col : ℕ) (v x : String) :
    (updateCell st t idx col v).sheets x
      = if x = t then setCellRows (st.sheets t) idx col v else st.sheets x := rfl

theorem updateCell_cache (st : StoreState) (t : String) (idx col : ℕ) (v : String) :
    (updateCell st t idx col v).cache = st.cache := rfl

theorem updateCell_titles (st : StoreState) (t : String) (idx col : ℕ) (v : String) :
    (updateCell st t idx col v).titles = st.titles := rfl

theorem appendRow_sheets (st : StoreState) (t : String) (row : List String) (x : String) :
    (appendRow st t row).sheets x
      = if x = t then st.sheets t ++ [row] else st.sheets x := rfl

theorem appendRow_cache (st : StoreState) (t : String) (row : List String) :
    (appendRow st t row).cache = st.cache := rfl

theorem appendRow_titles (st : StoreState) (t : String) (row : List String) :
    (appendRow st t row).titles = st.titles := rfl

/-- `_upsert_wallet` always leaves its sheet with no cache entry, and
touches no other entry. -/
theorem upsertWallet_cache (st : StoreState) (t n uid w x : String) :
    (upsertWallet st t n uid w).cache x = if x = t then none else st.cache x := by
  rw [upsertWallet]
  cases hf : (findRowById st t uid).1 with
  | none =>
    dsimp only
    simp only [cachePop, appendRow, setSheet]
    by_cases hx : x = t
    · subst hx
      simp
    · simp only [if_neg hx]
      rw [findRowById_snd_cache]
      simp [hx]
  | some p =>
    obtain ⟨idx, r⟩ := p
    dsimp only
    simp only [cachePop, updateCell, setSheet]
    by_cases hx : x = t
    · subst hx
      simp
    · simp only [if_neg hx]
      rw [findRowById_snd_cache]
      simp [hx]

theorem upsertWallet_titles (st : StoreState) (t n uid w : String) :
    (upsertWallet st t n uid w).titles = st.titles := by
  rw [upsertWallet]
  cases hf : (findRowById st t uid).1 with
  | none =>
    dsimp only
    simp only [cachePop_titles, appendRow_titles, findRowById_snd_titles]
  | some p =>
    obtain ⟨idx, r⟩ := p
    dsimp only
    simp only [cachePop_titles, updateCell_titles, findRowById_snd_titles]

/-- The effect of `_upsert_wallet` on sheet contents: the pure
`upsertRows` on its own sheet, nothing anywhere else. -/
theorem upsertWallet_sheets (st : StoreState) (t n uid w x : String) :
    (upsertWallet st t n uid w).sheets x
      = if x = t then upsertRows (st.sheets t) n uid w else st.sheets x := by
  have hsh := findRowById_snd_sheets st t uid
  rw [upsertWallet, upsertRows, findRowById_fst]
  cases hf : findRowAux uid (st.sheets t) 1 with
  | none =>
    dsimp only
    simp only [cachePop_sheets, appendRow_sheets, hsh]
  | some p =>
    obtain ⟨idx, r⟩ := p
    dsimp only
    simp only [cachePop_sheets, updateCell_sheets, hsh]
    by_cases hx : x = t
    · subst hx
      simp
    · simp [hx]

theorem addBinding_cache (st : StoreState) (g ch m : ℕ) (s now : String) (x : String) :
    (addBinding st g ch m s now).cache x
      = if x = "bindings" then none else st.cache x := by
  rw [addBinding]
  simp only [cachePop, appendRow, setSheet]
  by_cases hx : x = "bindings"
  · subst hx
    simp
  · simp only [if_neg hx]
    rw [getBindingsWs]
    split_ifs <;> rfl

theorem getBindingsWs_sheets_other (st : StoreState) (x : String) (hx : x ≠ "bindings") :
    (getBindingsWs st).sheets x = st.sheets x := by
  rw [getBindingsWs]
  split_ifs with h
  · rfl
  · simp [appendRow, setSheet, hx]

theorem addBinding_sheets_other (st : StoreState) (g ch m : ℕ) (s now : String) (x : String)
    (hx : x ≠ "bindings") :
    (addBinding st g ch m s now).sheets x = st.sheets x := by
  rw [addBinding]
  simp only [cachePop_sheets, appendRow_sheets, if_neg hx]
  exact getBindingsWs_sheets_other st x hx

/-- Every store operation preserves the cache discipline. -/
theorem runOp_preserves (st : StoreState) (op : StoreOp) (h : cacheConsistent st) :
    cacheConsistent (runOp st op) := by
  obtain ⟨h1, h2⟩ := h
  cases op with
  | readAll t =>
    show cacheConsistent (getAllValues st t).2
    rw [getAllValues]
    split_ifs with hb
    · exact ⟨h1, h2⟩
    · cases hc : st.cache t with
      | some v => exact ⟨h1, h2⟩
      | none =>
        refine ⟨?_, ?_⟩
        · intro x
          by_cases hx : x = t
          · subst hx
            right
            simp [cacheInsert]
          · simpa [cacheInsert, hx] using h1 x
        · have hbx : ("bindings" : String) ≠ t := fun hh => hb hh.symm
          simp [cacheInsert, hbx, h2]
  | findRow t uid =>
    show cacheConsistent (findRowById st t uid).2
    refine ⟨?_, ?_⟩
    · intro x
      rw [findRowById_snd_cache, findRowById_snd_sheets]
      by_cases hx : x = t
      · subst hx
        rw [if_pos rfl]
        split_ifs with hb
        · left
          rfl
        · right
          rfl
      · simp only [if_neg hx]
        exact h1 x
    · rw [findRowById_snd_cache]
      by_cases hb : ("bindings" : String) = t
      · rw [if_pos hb, hb]
        simp
      · rw [if_neg hb]
        exact h2
  | upsert t n uid w =>
    refine ⟨?_, ?_⟩
    · intro x
      show (upsertWallet st t n uid w).cache x = none ∨
        (upsertWallet st t n uid w).cache x = some ((upsertWallet st t n uid w).sheets x)
      rw [upsertWallet_cache]
      by_cases hx : x = t
      · rw [if_pos hx]
        left
        rfl
      · rw [if_neg hx, upsertWallet_sheets, if_neg hx]
        exact h1 x
    · show (upsertWallet st t n uid w).cache "bindings" = none
      rw [upsertWallet_cache]
      split_ifs
      · rfl
      · exact h2
  | bindAdd g ch m s now =>
    refine ⟨?_, ?_⟩
    · intro x
      show (addBinding st g ch m s now).cache x = none ∨
        (addBinding st g ch m s now).cache x = some ((addBinding st g ch m s now).sheets x)
      rw [addBinding_cache]
      by_cases hx : x = "bindings"
      · rw [if_pos hx]
        left
        rfl
      · rw [if_neg hx, addBinding_sheets_other st g ch m s now x hx]
        exact h1 x
    · show (addBinding st g ch m s now).cache "bindings" = none
      rw [addBinding_cache, if_pos rfl]

theorem runOps_preserves (ops : List StoreOp) :
    ∀ st : StoreState, cacheConsistent st → cacheConsistent (runOps st ops) := by
  induction ops with
  | nil =>
    intro st h
    exact h
  | cons op rest ih =>
    intro st h
    exact ih (runOp st op) (runOp_preserves st op h)

/-- C5: the read-cache discipline of the store layer.  (1) Under every
sequence of store operations, every cache entry is either absent or
exactly the live sheet content — writes (`_upsert_wallet` cell updates
and appends, `_add_binding` appends) always remove their sheet's entry —
and the bindings sheet is never cached.  (2) A read of the bindings
sheet always returns the live store content.  (3) A full-scope read of
any other sheet leaves its result cached under the sheet's name.
(4, 5) An upsert, and an `_add_binding`, leave their sheet with no
cache entry. -/
theorem store_cache_invariant :
    (∀ (st : StoreState) (ops : List StoreOp), cacheConsistent st →
      cacheConsistent (runOps st ops)) ∧
    (∀ st : StoreState, (getAllValues st "bindings").1 = st.sheets "bindings") ∧
    (∀ (st : StoreState) (ops : List StoreOp), cacheConsistent st →
      (runOps st ops).cache "bindings" = none) ∧
    (∀ (st : StoreState) (t : String), t ≠ "bindings" →
      ((getAllValues st t).2).cache t = some (getAllValues st t).1) ∧
    (∀ (st : StoreState) (t n uid w : String), (upsertWallet st t n uid w).cache t = none) ∧
    (∀ (st : StoreState) (g ch m : ℕ) (s now : String),
      (addBinding st g ch m s now).cache "bindings" = none) := by
  refine ⟨?_, ?_, ?_, ?_, ?_, ?_⟩
  · intro st ops h
    exact runOps_preserves ops st h
  · intro st
    rfl
  · intro st ops h
    exact (runOps_preserves ops st h).2
  · intro st t h
    exact getAllValues_caches st t h
  · intro st t n uid w
    rw [upsertWallet_cache, if_pos rfl]
  · intro st g ch m s now
    rw [addBinding_cache, if_pos rfl]

/-- Witness for C5 at a concrete operation sequence from the pristine
store: an upsert followed by a read and a binding append keeps the cache
consistent, the bindings sheet uncached, and the written sheet's entry
removed. -/
theorem store_cache_invariant_witness :
    cacheConsistent (runOps emptyStore
      [StoreOp.upsert "wallet_log" "alice" "u1" "0xAA",
       StoreOp.readAll "wallet_log",
       StoreOp.bindAdd 1 2 10 "wallet_log" "t0"]) ∧
    (getAllValues emptyStore "bindings").1 = emptyStore.sheets "bindings" ∧
    (upsertWallet emptyStore "wallet_log" "alice" "u1" "0xAA").cache "wallet_log" = none := by
  have h := store_cache_invariant
  exact ⟨h.1 emptyStore _ ⟨fun t => Or.inl rfl, rfl⟩, h.2.1 emptyStore,
    h.2.2.2.2.1 emptyStore "wallet_log" "alice" "u1" "0xAA"⟩

/-! ## Lemmas: upsert idempotence -/

theorem padRow_of_le {r : List String} {n : ℕ} (h : n ≤ r.length) : padRow r n = r := by
  simp [padRow, Nat.sub_eq_zero_of_le h]

/-- The freshly appended wallet row matches its own user id. -/
theorem rowMatchesId_triple (uid n w : String) (tail : List String) :
    rowMatchesId uid (n :: uid :: w :: tail) = true := by
  simp [rowMatchesId]

/-- Overwriting the three cells of a row of at least two columns yields
`[userName, userId, wallet]` followed by whatever columns lay beyond. -/
theorem row_update_shape (r : List String) (h : 2 ≤ r.length) (n uid w : String) :
    setRowCell (setRowCell (setRowCell r 1 n) 2 uid) 3 w = n :: uid :: w :: r.drop 3 := by
  match r, h with
  | a :: b :: t, _ =>
    have h1 : setRowCell (a :: b :: t) 1 n = n :: b :: t := by
      rw [setRowCell, padRow_of_le (by simp only [List.length_cons]; omega)]
      rfl
    have h2 : setRowCell (n :: b :: t) 2 uid = n :: uid :: t := by
      rw [setRowCell, padRow_of_le (by simp only [List.length_cons]; omega)]
      rfl
    rw [h1, h2]
    cases t with
    | nil =>
      rw [setRowCell]
      rfl
    | cons c t2 =>
      rw [setRowCell, padRow_of_le (by simp only [List.length_cons]; omega)]
      rfl

theorem findRowAux_shift (uid : String) :
    ∀ (rows : List (List String)) (i : ℕ),
      findRowAux uid rows (i + 1)
        = Option.map (fun p => (p.1 + 1, p.2)) (findRowAux uid rows i) := by
  intro rows
  induction rows with
  | nil =>
    intro i
    rfl
  | cons r rs ih =>
    intro i
    by_cases hm : rowMatchesId uid r = true
    · simp [findRowAux, hm]
    · simp [findRowAux, hm, ih (i + 1)]

theorem findRowAux_none (uid : String) :
    ∀ (rows : List (List String)), (∀ r ∈ rows, rowMatchesId uid r = false) →
      ∀ i, findRowAux uid rows i = none := by
  intro rows
  induction rows with
  | nil =>
    intro _ i
    rfl
  | cons r rs ih =>
    intro h i
    have hr : rowMatchesId uid r = false := h r (List.mem_cons_self _ _)
    rw [findRowAux, if_neg (by simp [hr])]
    exact ih (fun x hx => h x (List.mem_cons_of_mem _ hx)) (i + 1)

theorem findRowAux_ge (uid : String) :
    ∀ (rows : List (List String)) (i j : ℕ) (r : List String),
      findRowAux uid rows i = some (j, r) → i ≤ j := by
  intro rows
  induction rows with
  | nil =>
    intro i j r h
    simp [findRowAux] at h
  | cons rr rs ih =>
    intro i j r h
    by_cases hm : rowMatchesId uid rr = true
    · rw [findRowAux, if_pos hm] at h
      simp only [Option.some.injEq, Prod.mk.injEq] at h
      omega
    · rw [findRowAux, if_neg hm] at h
      have := ih (i + 1) j r h
      omega

theorem setCellRows_cons (r : List String) (rs : List (List String)) (idx col : ℕ) (v : String)
    (h : 1 ≤ idx) :
    setCellRows (r :: rs) (idx + 1) col v = r :: setCellRows rs idx col v := by
  obtain ⟨m, rfl⟩ : ∃ m, idx = m + 1 := ⟨idx - 1, by omega⟩
  simp only [setCellRows, padRows, List.length_cons, List.cons_append, Nat.succ_sub_succ,
    Nat.sub_zero, List.set_cons_succ, List.getD_cons_succ]

/-- Setting a cell of a row that exists keeps the row count. -/
theorem setCellRows_of_le (rows : List (List String)) (idx col : ℕ) (v : String)
    (h : idx ≤ rows.length) :
    setCellRows rows idx col v
      = rows.set (idx - 1) (setRowCell (rows.getD (idx - 1) []) col v) := by
  simp [setCellRows, padRows, Nat.sub_eq_zero_of_le h]

/-- `_upsert_wallet` skips over a non-matching head row. -/
theorem upsertRows_cons_of_not_match (r : List String) (rs : List (List String))
    (n uid w : String) (hm : rowMatchesId uid r = false) :
    upsertRows (r :: rs) n uid w = r :: upsertRows rs n uid w := by
  rw [upsertRows, upsertRows, findRowAux, if_neg (by simp [hm]),
    show (1 : ℕ) + 1 = 1 + 1 from rfl, findRowAux_shift]
  cases hf : findRowAux uid rs 1 with
  | none =>
    rfl
  | some p =>
    obtain ⟨j, row⟩ := p
    have hj : 1 ≤ j := findRowAux_ge uid rs 1 j row hf
    dsimp only [Option.map]
    rw [setCellRows_cons _ _ j 1 n hj, setCellRows_cons _ _ j 2 uid hj,
      setCellRows_cons _ _ j 3 w hj]

/-- In-place update of the matching head row. -/
theorem upsertRows_cons_of_match (r : List String) (rs : List (List String))
    (n uid w : String) (hm : rowMatchesId uid r = true) :
    upsertRows (r :: rs) n uid w = (n :: uid :: w :: r.drop 3) :: rs := by
  have hlen : 2 ≤ r.length := by
    by_contra hcon
    simp [rowMatchesId, decide_eq_true_eq] at hm
    omega
  rw [upsertRows, findRowAux, if_pos hm]
  dsimp only
  have hset : ∀ (col : ℕ) (v : String) (row : List String) (rest : List (List String)),
      setCellRows (row :: rest) 1 col v = setRowCell row col v :: rest := by
    intro col v row rest
    rw [setCellRows_of_le _ _ _ _ (by simp)]
    rfl
  rw [hset, hset, hset, row_update_shape r hlen]

/-- Core of C6 at the level of sheet rows: with at most one row matching
the user id, one upsert leaves exactly one matching row, and a second
identical upsert finds that row and rewrites it in place without any
change. -/
theorem upsertRows_idempotent (n uid w : String) :
    ∀ rows : List (List String), rows.countP (rowMatchesId uid) ≤ 1 →
      (upsertRows rows n uid w).countP (rowMatchesId uid) = 1 ∧
      upsertRows (upsertRows rows n uid w) n uid w = upsertRows rows n uid w ∧
      (findRowAux uid (upsertRows rows n uid w) 1).isSome = true := by
  intro rows
  induction rows with
  | nil =>
    intro _
    have h1 : upsertRows ([] : List (List String)) n uid w = [[n, uid, w]] := rfl
    rw [h1]
    refine ⟨?_, ?_, ?_⟩
    · simp [List.countP_cons, rowMatchesId_triple]
    · rw [upsertRows_cons_of_match _ _ _ _ _ (rowMatchesId_triple uid n w [])]
      rfl
    · rw [findRowAux, if_pos (rowMatchesId_triple uid n w [])]
      rfl
  | cons r rs ih =>
    intro hc
    by_cases hm : rowMatchesId uid r = true
    · have hrs : rs.countP (rowMatchesId uid) = 0 := by
        rw [List.countP_cons_of_pos _ _ hm] at hc
        omega
      rw [upsertRows_cons_of_match r rs n uid w hm]
      refine ⟨?_, ?_, ?_⟩
      · rw [List.countP_cons_of_pos _ _ (rowMatchesId_triple uid n w (r.drop 3)), hrs]
      · rw [upsertRows_cons_of_match _ _ _ _ _ (rowMatchesId_triple uid n w (r.drop 3))]
        simp
      · rw [findRowAux, if_pos (rowMatchesId_triple uid n w (r.drop 3))]
        rfl
    · have hm0 : rowMatchesId uid r = false := by simpa using hm
      have hc2 : rs.countP (rowMatchesId uid) ≤ 1 := by
        rw [List.countP_cons_of_neg _ _ (by simp [hm0])] at hc
        exact hc
      obtain ⟨ih1, ih2, ih3⟩ := ih hc2
      rw [upsertRows_cons_of_not_match r rs n uid w hm0]
      refine ⟨?_, ?_, ?_⟩
      · rw [List.countP_cons_of_neg _ _ (by simp [hm0])]
        exact ih1
      · rw [upsertRows_cons_of_not_match r _ n uid w hm0, ih2]
      · rw [findRowAux, if_neg (by simp [hm0]),
          show (1 : ℕ) + 1 = 1 + 1 from rfl, findRowAux_shift]
        rcases Option.isSome_iff_exists.mp ih3 with ⟨p, hp⟩
        rw [hp]
        rfl

/-- C6: the registry upsert is idempotent.  On any sheet whose rows
satisfy the data-model key invariant (at most one row for the user id),
two identical upserts leave exactly one row whose key column equals the
user id; the second call finds the row the first left behind (the scan
succeeds) and overwrites its three cells in place by row index, changing
nothing — in particular it appends no row, so the row count is that of
the first call. -/
theorem upsert_idempotent (st : StoreState) (t userName uid wallet : String)
    (h : (st.sheets t).countP (rowMatchesId uid) ≤ 1) :
    (((upsertWallet (upsertWallet st t userName uid wallet) t userName uid wallet).sheets t).countP
        (rowMatchesId uid) = 1) ∧
    (upsertWallet (upsertWallet st t userName uid wallet) t userName uid wallet).sheets t
      = (upsertWallet st t userName uid wallet).sheets t ∧
    ((upsertWallet (upsertWallet st t userName uid wallet) t userName uid wallet).sheets t).length
      = ((upsertWallet st t userName uid wallet).sheets t).length ∧
    (findRowAux uid ((upsertWallet st t userName uid wallet).sheets t) 1).isSome = true := by
  have h1 : (upsertWallet st t userName uid wallet).sheets t
      = upsertRows (st.sheets t) userName uid wallet := by
    rw [upsertWallet_sheets, if_pos rfl]
  have h2 : (upsertWallet (upsertWallet st t userName uid wallet) t userName uid wallet).sheets t
      = upsertRows (upsertRows (st.sheets t) userName uid wallet) userName uid wallet := by
    rw [upsertWallet_sheets, if_pos rfl, h1]
  obtain ⟨hcount, hfix, hsome⟩ := upsertRows_idempotent userName uid wallet (st.sheets t) h
  rw [h1, h2, hfix]
  exact ⟨hcount, rfl, rfl, hsome⟩

/-- Witness for C6: two identical upserts into the empty wallet sheet of
the pristine store leave exactly the single row `[alice, u1, 0xAA]`. -/
theorem upsert_idempotent_witness :
    (((upsertWallet (upsertWallet emptyStore "wallet_log" "alice" "u1" "0xAA")
        "wallet_log" "alice" "u1" "0xAA").sheets "wallet_log").countP (rowMatchesId "u1") = 1) ∧
    (upsertWallet (upsertWallet emptyStore "wallet_log" "alice" "u1" "0xAA")
        "wallet_log" "alice" "u1" "0xAA").sheets "wallet_log"
      = (upsertWallet emptyStore "wallet_log" "alice" "u1" "0xAA").sheets "wallet_log" ∧
    (upsertWallet emptyStore "wallet_log" "alice" "u1" "0xAA").sheets "wallet_log"
      = [["alice", "u1", "0xAA"]] := by
  have h := upsert_idempotent emptyStore "wallet_log" "alice" "u1" "0xAA" (by decide)
  exact ⟨h.1, h.2.1, by decide⟩

/-! ## Lemmas: the bindings registry -/

theorem getBindingsWs_of_mem (st : StoreState) (h : "bindings" ∈ st.titles) :
    getBindingsWs st = st := by
  rw [getBindingsWs, if_pos h]

theorem addBinding_titles (st : StoreState) (g ch m : ℕ) (s now : String) :
    (addBinding st g ch m s now).titles = (getBindingsWs st).titles := by
  rw [addBinding]
  simp [cachePop_titles, appendRow_titles]

theorem addBinding_bindings_of_mem (st : StoreState) (g ch m : ℕ) (s now : String)
    (h : "bindings" ∈ st.titles) :
    (addBinding st g ch m s now).sheets "bindings"
      = st.sheets "bindings" ++ [[toString g, toString ch, toString m, s, now]] := by
  rw [addBinding, getBindingsWs_of_mem st h]
  simp [cachePop_sheets, appendRow_sheets]

/-- The row `_add_binding` writes matches its own guild and sheet. -/
theorem bindMatches_row (g ch m : ℕ) (s now : String) :
    bindMatches g s [toString g, toString ch, toString m, s, now] = true := by
  simp [bindMatches, List.getD]

theorem isSheetAlreadyBound_eq (st : StoreState) (g : ℕ) (s : String)
    (hmem : "bindings" ∈ st.titles) :
    isSheetAlreadyBound st g s
      = (((st.sheets "bindings").drop 1).any (bindMatches g s), st) := by
  rw [isSheetAlreadyBound, getBindingsWs_of_mem st hmem]

theorem getBindingRow_eq (st : StoreState) (g : ℕ) (s : String)
    (hmem : "bindings" ∈ st.titles) :
    getBindingRow st g s
      = (((st.sheets "bindings").drop 1).find? (bindMatches g s), st) := by
  rw [getBindingRow, getBindingsWs_of_mem st hmem]

/-- `/register_wallet` on an unbound sheet posts the hub and appends the
binding row. -/
theorem registerWallet_not_bound (st : StoreState) (g ch n m : ℕ) (e : Bool)
    (sheetName now : String)
    (hbtn : sheetFromButtonNumber n = some sheetName)
    (hmem : "bindings" ∈ st.titles)
    (hb0 : ((st.sheets "bindings").drop 1).any (bindMatches g sheetName) = false) :
    registerWallet st g ch n e m now
      = (.posted sheetName m, addBinding (ensureTitle st sheetName) g ch m sheetName now) := by
  rw [registerWallet, hbtn]
  dsimp only
  rw [isSheetAlreadyBound_eq st g sheetName hmem]
  dsimp only
  rw [hb0]
  simp only [Bool.false_and]
  rw [if_neg Bool.false_ne_true, if_neg Bool.false_ne_true]

/-- `/register_wallet` without the refresh flag on an already-bound sheet
is rejected as a duplicate and changes nothing. -/
theorem registerWallet_dup (st : StoreState) (g ch n m : ℕ) (sheetName now : String)
    (hbtn : sheetFromButtonNumber n = some sheetName)
    (hmem : "bindings" ∈ st.titles)
    (hb1 : ((st.sheets "bindings").drop 1).any (bindMatches g sheetName) = true) :
    registerWallet st g ch n false m now = (.duplicate sheetName, st) := by
  rw [registerWallet, hbtn]
  dsimp only
  rw [isSheetAlreadyBound_eq st g sheetName hmem]
  dsimp only
  rw [hb1]
  simp only [Bool.not_false, Bool.true_and]
  rw [if_pos trivial]

/-- `/register_wallet` with the refresh flag on an already-bound sheet
re-installs the view on the channel and message recorded in the existing
binding row and appends nothing. -/
theorem registerWallet_refresh (st : StoreState) (g ch n m : ℕ) (sheetName now : String)
    (row : List String)
    (hbtn : sheetFromButtonNumber n = some sheetName)
    (hmem : "bindings" ∈ st.titles)
    (hb1 : ((st.sheets "bindings").drop 1).any (bindMatches g sheetName) = true)
    (hfind : ((st.sheets "bindings").drop 1).find? (bindMatches g sheetName) = some row) :
    registerWallet st g ch n true m now
      = (.refreshed (row.getD 1 "") (row.getD 2 ""), st) := by
  rw [registerWallet, hbtn]
  dsimp only
  rw [isSheetAlreadyBound_eq st g sheetName hmem]
  dsimp only
  rw [hb1]
  simp only [Bool.not_true, Bool.true_and, Bool.and_false]
  rw [if_neg Bool.false_ne_true, if_pos trivial, getBindingRow_eq st g sheetName hmem]
  dsimp only
  rw [hfind]

/-- C7: binding creation is unique per (guild, sheet).  From a store
whose bindings sheet carries its header and no binding for
(guild, sheet): the first `/register_wallet` posts the hub message and
appends exactly one binding row; a second call without `edit_if_exists`
is rejected as a duplicate and appends nothing; a second call with
`edit_if_exists` refreshes the buttons on the channel and message
recorded in the existing binding row — it touches the already-bound
message rather than creating a second binding — and also appends
nothing, leaving exactly one binding row for the pair. -/
theorem binding_duplicate_rejected (st0 : StoreState) (g ch n m1 m2 : ℕ)
    (sheetName now1 now2 : String)
    (hbtn : sheetFromButtonNumber n = some sheetName)
    (hmem : "bindings" ∈ st0.titles)
    (hhdr : st0.sheets "bindings" ≠ [])
    (hnone : ∀ r ∈ (st0.sheets "bindings").drop 1, bindMatches g sheetName r = false) :
    (registerWallet st0 g ch n false m1 now1).1 = .posted sheetName m1 ∧
    ((registerWallet st0 g ch n false m1 now1).2).sheets "bindings"
      = st0.sheets "bindings" ++ [[toString g, toString ch, toString m1, sheetName, now1]] ∧
    (registerWallet ((registerWallet st0 g ch n false m1 now1).2) g ch n false m2 now2).1
      = .duplicate sheetName ∧
    ((registerWallet ((registerWallet st0 g ch n false m1 now1).2) g ch n false m2 now2).2).sheets
        "bindings"
      = ((registerWallet st0 g ch n false m1 now1).2).sheets "bindings" ∧
    (registerWallet ((registerWallet st0 g ch n false m1 now1).2) g ch n true m2 now2).1
      = .refreshed (toString ch) (toString m1) ∧
    ((registerWallet ((registerWallet st0 g ch n false m1 now1).2) g ch n true m2 now2).2).sheets
        "bindings"
      = ((registerWallet st0 g ch n false m1 now1).2).sheets "bindings" ∧
    ((((registerWallet st0 g ch n false m1 now1).2).sheets "bindings").drop 1).countP
        (bindMatches g sheetName) = 1 := by
  have hb0 : ((st0.sheets "bindings").drop 1).any (bindMatches g sheetName) = false := by
    rw [List.any_eq_false]
    intro r hr
    simp [hnone r hr]
  have hreg1 := registerWallet_not_bound st0 g ch n m1 false sheetName now1 hbtn hmem hb0
  have hmemE : "bindings" ∈ (ensureTitle st0 sheetName).titles := mem_ensureTitle st0 sheetName _ hmem
  have hsheets1 : ((registerWallet st0 g ch n false m1 now1).2).sheets "bindings"
      = st0.sheets "bindings" ++ [[toString g, toString ch, toString m1, sheetName, now1]] := by
    rw [hreg1]
    dsimp only
    rw [addBinding_bindings_of_mem _ g ch m1 sheetName now1 hmemE, ensureTitle_sheets]
  have hmem1 : "bindings" ∈ ((registerWallet st0 g ch n false m1 now1).2).titles := by
    rw [hreg1]
    dsimp only
    rw [addBinding_titles, getBindingsWs_of_mem _ hmemE]
    exact hmemE
  have hdrop1 : (((registerWallet st0 g ch n false m1 now1).2).sheets "bindings").drop 1
      = (st0.sheets "bindings").drop 1
        ++ [[toString g, toString ch, toString m1, sheetName, now1]] := by
    rw [hsheets1, List.drop_append_of_le_length (List.length_pos.mpr hhdr)]
  have hb1 : ((((registerWallet st0 g ch n false m1 now1).2).sheets "bindings").drop 1).any
      (bindMatches g sheetName) = true := by
    rw [hdrop1, List.any_append, hb0]
    simp only [List.any_cons, List.any_nil, bindMatches_row g ch m1 sheetName now1,
      Bool.or_false, Bool.false_or]
  have hfind : ((((registerWallet st0 g ch n false m1 now1).2).sheets "bindings").drop 1).find?
      (bindMatches g sheetName)
      = some [toString g, toString ch, toString m1, sheetName, now1] := by
    rw [hdrop1, List.find?_append,
      List.find?_eq_none.mpr (fun x hx => by simp [hnone x hx])]
    rw [Option.none_or]
    rw [List.find?_cons_of_pos _ (bindMatches_row g ch m1 sheetName now1)]
  have hdup := registerWallet_dup _ g ch n m2 sheetName now2 hbtn hmem1 hb1
  have hrefresh := registerWallet_refresh _ g ch n m2 sheetName now2 _ hbtn hmem1 hb1 hfind
  refine ⟨by rw [hreg1], hsheets1, by rw [hdup], by rw [hdup], ?_, by rw [hrefresh], ?_⟩
  · rw [hrefresh]
    simp [List.getD]
  · rw [hdrop1, List.countP_append, List.countP_eq_zero.mpr (fun x hx => by simp [hnone x hx])]
    simp [List.countP_cons, bindMatches_row g ch m1 sheetName now1]

/-- Witness for C7: a fresh store whose bindings sheet holds only the
header row; guild 1, channel 2, button 1, messages 10 and 11. -/
theorem binding_duplicate_rejected_witness :
    (registerWallet headerStore 1 2 1 false 10 "t0").1 = .posted "wallet_log" 10 ∧
    (registerWallet ((registerWallet headerStore 1 2 1 false 10 "t0").2) 1 2 1 false 11 "t1").1
      = .duplicate "wallet_log" ∧
    (registerWallet ((registerWallet headerStore 1 2 1 false 10 "t0").2) 1 2 1 true 11 "t1").1
      = .refreshed "2" "10" ∧
    ((registerWallet ((registerWallet headerStore 1 2 1 false 10 "t0").2) 1 2 1 true 11 "t1").2).sheets
        "bindings"
      = [bindingsHeader, ["1", "2", "10", "wallet_log", "t0"]] := by
  have h := binding_duplicate_rejected headerStore 1 2 1 10 11 "wallet_log" "t0" "t1"
    (by decide) (by decide) (by decide) (by decide)
  refine ⟨h.1, h.2.2.1, ?_, ?_⟩
  · have := h.2.2.2.2.1
    rw [this]
    rfl
  · rw [h.2.2.2.2.2.1, h.2.1]
    rfl

/-! ## Lemmas: wallet hub buttons -/

theorem lookupRows_none (uid : String) (rows : List (List String))
    (h : ∀ r ∈ rows, rowMatchesId uid r = false) :
    lookupRows rows uid = (none, none) := by
  rw [lookupRows, findRowAux_none uid rows h 1]

theorem upsertRows_append_of_no_match (rows : List (List String)) (n uid w : String)
    (h : ∀ r ∈ rows, rowMatchesId uid r = false) :
    upsertRows rows n uid w = rows ++ [[n, uid, w]] := by
  rw [upsertRows, findRowAux_none uid rows h 1]

theorem lookupWalletInSheet_eq (st : StoreState) (t uid : String) :
    lookupWalletInSheet st t uid = (lookupRows (st.sheets t) uid, (findRowById st t uid).2) := by
  rw [lookupWalletInSheet, lookupRows, findRowById_fst]
  cases hf : findRowAux uid (st.sheets t) 1 with
  | none => rfl
  | some p =>
    obtain ⟨i, r⟩ := p
    dsimp only
    split_ifs <;> rfl

theorem getMasterWallet_fst (st : StoreState) (uid : String) :
    (getMasterWallet st uid).1 = lookupRows (st.sheets MASTER_SHEET) uid := by
  rw [getMasterWallet, lookupWalletInSheet_eq, ensureTitle_sheets]

theorem getMasterWallet_snd_sheets (st : StoreState) (uid : String) :
    ((getMasterWallet st uid).2).sheets = st.sheets := by
  rw [getMasterWallet, lookupWalletInSheet_eq]
  dsimp only
  rw [findRowById_snd_sheets, ensureTitle_sheets]

theorem lookupWalletInSheet_snd_sheets (st : StoreState) (t uid : String) :
    ((lookupWalletInSheet st t uid).2).sheets = st.sheets := by
  rw [lookupWalletInSheet_eq]
  exact findRowById_snd_sheets st t uid

theorem enrollInSheetOnly_sheets (st : StoreState) (s n uid w x : String) :
    (enrollInSheetOnly st s n uid w).sheets x
      = if x = s then upsertRows (st.sheets s) n uid w else st.sheets x := by
  rw [enrollInSheetOnly, upsertWallet_sheets, ensureTitle_sheets]

theorem setMasterWallet_sheets (st : StoreState) (n uid w x : String) :
    (setMasterWallet st n uid w).sheets x
      = if x = MASTER_SHEET then upsertRows (st.sheets MASTER_SHEET) n uid w
        else st.sheets x := by
  rw [setMasterWallet, upsertWallet_sheets, ensureTitle_sheets]

theorem resolveBoundSheet_snd_of_mem (st : StoreState) (m : ℕ)
    (h : "bindings" ∈ st.titles) : (resolveBoundSheet st m).2 = st := by
  rw [resolveBoundSheet, getBindingsWs_of_mem st h]
  cases hf : ((st.sheets "bindings").drop 1).find?
      (fun r => decide (3 ≤ r.length) && (r.getD 2 "" == toString m)) with
  | none => rfl
  | some r => rfl

theorem truthyS_none : truthyS none = false := rfl

/-- C8 counterexample: the claim says the named scope gains one row
carrying the MASTER record's display name and wallet.  With the master
row `["", "u1", "0xAA"]` (empty display name) and user `alice` pressing
register on the scope bound to message 10, the scope gains
`["alice", "u1", "0xAA"]` — the code's `m_name or user_name` fallback
substitutes the interacting user's name — which differs from the row
`["", "u1", "0xAA"]` the claim prescribes. -/
theorem register_auto_enroll_name_cex :
    (btnRegister emptyNameStore 10 "alice" "u1").1 = .syncedFromMaster "alice" "0xAA" ∧
    ((btnRegister emptyNameStore 10 "alice" "u1").2).sheets "wallet_log"
      = [["alice", "u1", "0xAA"]] ∧
    ¬ ((btnRegister emptyNameStore 10 "alice" "u1").2).sheets "wallet_log"
      = emptyNameStore.sheets "wallet_log" ++ [["", "u1", "0xAA"]] := by
  refine ⟨by decide, by decide, by decide⟩

/-- C8 (amended): pressing `Register wallet` on a scope in which the user
has no row.  If the master scope holds a wallet for the user, the scope
gains exactly one row `[name, userId, masterWallet]` where `name` is the
master record's display name, or the interacting user's name when the
master display name is empty (`m_name or user_name`), and no modal is
shown.  If the master holds no wallet, the modal is shown, nothing is
written yet, and on submit the stripped input is written both to the
named scope and to the master scope. -/
theorem register_auto_enroll_amended (st : StoreState) (messageId : ℕ)
    (userName uid sheetName : String) (mName mWallet : Option String)
    (hmem : "bindings" ∈ st.titles)
    (hb : (resolveBoundSheet st messageId).1 = some sheetName)
    (hno : ∀ r ∈ st.sheets sheetName, rowMatchesId uid r = false)
    (hm : lookupRows (st.sheets MASTER_SHEET) uid = (mName, mWallet)) :
    (truthyS mWallet = true →
      (btnRegister st messageId userName uid).1
        = .syncedFromMaster (orElseName mName userName) (mWallet.getD "") ∧
      ((btnRegister st messageId userName uid).2).sheets sheetName
        = st.sheets sheetName ++ [[orElseName mName userName, uid, mWallet.getD ""]]) ∧
    (truthyS mWallet = false →
      (btnRegister st messageId userName uid).1 = .modalShown sheetName userName ∧
      ∀ x, ((btnRegister st messageId userName uid).2).sheets x = st.sheets x) ∧
    (sheetName ≠ MASTER_SHEET →
      ∀ input : String,
        (modalSubmitRegister st sheetName userName uid input).sheets sheetName
          = st.sheets sheetName ++ [[userName, uid, input.trim]] ∧
        ((∀ r ∈ st.sheets MASTER_SHEET, rowMatchesId uid r = false) →
          (modalSubmitRegister st sheetName userName uid input).sheets MASTER_SHEET
            = st.sheets MASTER_SHEET ++ [[userName, uid, input.trim]])) := by
  have hres2 : (resolveBoundSheet st messageId).2 = st :=
    resolveBoundSheet_snd_of_mem st messageId hmem
  have hlk : lookupRows (st.sheets sheetName) uid = (none, none) :=
    lookupRows_none uid _ hno
  refine ⟨?_, ?_, ?_⟩
  · intro ht
    constructor
    · simp [btnRegister, hb, hres2, lookupWalletInSheet_eq, ensureTitle_sheets, hlk,
        truthyS_none, getMasterWallet_fst, findRowById_snd_sheets, hm, ht]
    · simp [btnRegister, hb, hres2, lookupWalletInSheet_eq, ensureTitle_sheets, hlk,
        truthyS_none, getMasterWallet_fst, findRowById_snd_sheets, hm, ht,
        enrollInSheetOnly_sheets, getMasterWallet_snd_sheets,
        upsertRows_append_of_no_match _ _ _ _ hno]
  · intro ht
    constructor
    · simp [btnRegister, hb, hres2, lookupWalletInSheet_eq, ensureTitle_sheets, hlk,
        truthyS_none, getMasterWallet_fst, findRowById_snd_sheets, hm, ht]
    · intro x
      simp [btnRegister, hb, hres2, lookupWalletInSheet_eq, ensureTitle_sheets, hlk,
        truthyS_none, getMasterWallet_fst, findRowById_snd_sheets, hm, ht,
        getMasterWallet_snd_sheets]
  · intro hne input
    constructor
    · rw [modalSubmitRegister, setMasterWallet_sheets, if_neg hne, enrollInSheetOnly_sheets,
        if_pos rfl, upsertRows_append_of_no_match _ _ _ _ hno]
    · intro hnoM
      rw [modalSubmitRegister, setMasterWallet_sheets, if_pos rfl, enrollInSheetOnly_sheets,
        if_neg (fun hh => hne hh.symm), upsertRows_append_of_no_match _ _ _ _ hnoM]

/-- Witness for the amended C8 theorem at the concrete store
`emptyNameStore`: the master holds `(some "", some "0xAA")` for `u1`,
the bound scope `wallet_log` is empty, and the register press enrolls
`["alice", "u1", "0xAA"]` without a modal. -/
theorem register_auto_enroll_amended_witness :
    (btnRegister emptyNameStore 10 "alice" "u1").1
      = .syncedFromMaster (orElseName (some "") "alice") ((some "0xAA").getD "") ∧
    ((btnRegister emptyNameStore 10 "alice" "u1").2).sheets "wallet_log"
      = emptyNameStore.sheets "wallet_log"
        ++ [[orElseName (some "") "alice", "u1", (some "0xAA").getD ""]] :=
  (register_auto_enroll_amended emptyNameStore 10 "alice" "u1" "wallet_log"
    (some "") (some "0xAA") (by decide) (by decide) (by decide) (by decide)).1 (by decide)

/-- The Python fallback is idempotent: applying `or user_name` to a name
that already went through the fallback changes nothing. -/
theorem orElseName_some_orElseName (o : Option String) (f : String) :
    orElseName (some (orElseName o f)) f = orElseName o f := by
  cases o with
  | none => simp [orElseName]
  | some s =>
    by_cases hs : s = "" <;> simp [orElseName, hs]

/-- `_maybe_auto_enroll_from_master` with the shipped flag, when the
master scope holds a truthy wallet: it enrolls
`(m_name or user_name, wallet)` into the named scope and reports the
enrollment. -/
theorem maybeAutoEnrollFromMaster_enrolls (st : StoreState)
    (sheetName userName uid : String) (mName mWallet : Option String)
    (hm : lookupRows (st.sheets MASTER_SHEET) uid = (mName, mWallet))
    (ht : truthyS mWallet = true) :
    maybeAutoEnrollFromMaster st sheetName userName uid
      = ((true, some (orElseName mName userName), mWallet),
         enrollInSheetOnly (getMasterWallet st uid).2 sheetName
           (orElseName mName userName) uid (mWallet.getD "")) := by
  have h1 : (getMasterWallet st uid).1 = (mName, mWallet) := by
    rw [getMasterWallet_fst, hm]
  simp [maybeAutoEnrollFromMaster, h1, ht, AUTO_ENROLL_FROM_MASTER_ON_ANY_BUTTON]

/-- C10 counterexample: the claim says the check and change buttons
upsert the master record's display name into the named scope.  With the
master row `["", "u1", "0xAA"]` (empty display name), user `alice`
pressing check on the scope bound to message 10 makes the scope gain
`["alice", "u1", "0xAA"]` — the pressing user's name via
`m_name or user_name` — not the master's display name `""`. -/
theorem check_change_auto_enroll_name_cex :
    (btnCheck emptyNameStore 10 "alice" "u1").1 = .enrolledFromMaster "alice" "0xAA" ∧
    ((btnCheck emptyNameStore 10 "alice" "u1").2).sheets "wallet_log"
      = [["alice", "u1", "0xAA"]] ∧
    ¬ ((btnCheck emptyNameStore 10 "alice" "u1").2).sheets "wallet_log"
      = emptyNameStore.sheets "wallet_log" ++ [["", "u1", "0xAA"]] := by
  refine ⟨by decide, by decide, by decide⟩

/-- C10 (amended): with the shipped flag
`AUTO_ENROLL_FROM_MASTER_ON_ANY_BUTTON = true`, the check and change
buttons mutate the registry: for a user with a truthy master wallet but
no row in the bound scope, either press appends exactly the row
`[name, userId, masterWallet]` to that scope before responding, where
`name` is the master display name or the pressing user's name when the
master display name is empty (`m_name or user_name`). -/
theorem check_change_auto_enroll_amended (st : StoreState) (messageId : ℕ)
    (userName uid sheetName : String) (mName mWallet : Option String)
    (hmem : "bindings" ∈ st.titles)
    (hb : (resolveBoundSheet st messageId).1 = some sheetName)
    (hno : ∀ r ∈ st.sheets sheetName, rowMatchesId uid r = false)
    (hm : lookupRows (st.sheets MASTER_SHEET) uid = (mName, mWallet))
    (ht : truthyS mWallet = true) :
    ((btnCheck st messageId userName uid).1
        = .enrolledFromMaster (orElseName mName userName) (mWallet.getD "") ∧
      ((btnCheck st messageId userName uid).2).sheets sheetName
        = st.sheets sheetName ++ [[orElseName mName userName, uid, mWallet.getD ""]]) ∧
    ((btnChange st messageId userName uid).1
        = .confirmChange sheetName (mWallet.getD "") (orElseName mName userName) ∧
      ((btnChange st messageId userName uid).2).sheets sheetName
        = st.sheets sheetName ++ [[orElseName mName userName, uid, mWallet.getD ""]]) := by
  have hres2 : (resolveBoundSheet st messageId).2 = st :=
    resolveBoundSheet_snd_of_mem st messageId hmem
  have hlk : lookupRows (st.sheets sheetName) uid = (none, none) :=
    lookupRows_none uid _ hno
  have hm1 : lookupRows
      (((findRowById (ensureTitle st sheetName) sheetName uid).2).sheets MASTER_SHEET) uid
      = (mName, mWallet) := by
    rw [findRowById_snd_sheets, ensureTitle_sheets]; exact hm
  have hae := maybeAutoEnrollFromMaster_enrolls
    ((findRowById (ensureTitle st sheetName) sheetName uid).2)
    sheetName userName uid mName mWallet hm1 ht
  refine ⟨⟨?_, ?_⟩, ?_, ?_⟩
  · simp [btnCheck, hb, hres2, lookupWalletInSheet_eq, ensureTitle_sheets, hlk,
      truthyS_none, hae]
  · simp [btnCheck, hb, hres2, lookupWalletInSheet_eq, ensureTitle_sheets, hlk,
      truthyS_none, hae, enrollInSheetOnly_sheets, getMasterWallet_snd_sheets,
      findRowById_snd_sheets, upsertRows_append_of_no_match _ _ _ _ hno]
  · simp [btnChange, hb, hres2, lookupWalletInSheet_eq, ensureTitle_sheets, hlk,
      truthyS_none, hae, ht, orElseName_some_orElseName]
  · simp [btnChange, hb, hres2, lookupWalletInSheet_eq, ensureTitle_sheets, hlk,
      truthyS_none, hae, ht, enrollInSheetOnly_sheets, getMasterWallet_snd_sheets,
      findRowById_snd_sheets, upsertRows_append_of_no_match _ _ _ _ hno]

/-- Witness for the amended C10 theorem at `emptyNameStore`: both the
check and the change press append `["alice", "u1", "0xAA"]` to the bound
scope `wallet_log`. -/
theorem check_change_auto_enroll_amended_witness :
    ((btnCheck emptyNameStore 10 "alice" "u1").1
        = .enrolledFromMaster (orElseName (some "") "alice") ((some "0xAA").getD "") ∧
      ((btnCheck emptyNameStore 10 "alice" "u1").2).sheets "wallet_log"
        = emptyNameStore.sheets "wallet_log"
          ++ [[orElseName (some "") "alice", "u1", (some "0xAA").getD ""]]) ∧
    ((btnChange emptyNameStore 10 "alice" "u1").1
        = .confirmChange "wallet_log" ((some "0xAA").getD "") (orElseName (some "") "alice") ∧
      ((btnChange emptyNameStore 10 "alice" "u1").2).sheets "wallet_log"
        = emptyNameStore.sheets "wallet_log"
          ++ [[orElseName (some "") "alice", "u1", (some "0xAA").getD ""]]) :=
  check_change_auto_enroll_amended emptyNameStore 10 "alice" "u1" "wallet_log"
    (some "") (some "0xAA") (by decide) (by decide) (by decide) (by decide) (by decide)

/-- The retry loop from an arbitrary point: if the `j` invocations from
`attempt` on are retryable failures and invocation `attempt + j` is
where the wrapper stops — because its result is not a retryable failure,
or because the guarded attempts are exhausted — then the trace records
that result, `j + 1` further invocations, and `j` doubling sleeps
appended to the log. -/
theorem sheetsCallAux_shift {α : Type} (f : ℕ → CallRes α) :
    ∀ (j rem attempt : ℕ) (delay : ℚ) (sleeps : List ℚ), j ≤ rem →
    (∀ i, i < j → isRetryableErr (f (attempt + i)) = true) →
    (j = rem ∨ isRetryableErr (f (attempt + j)) = false) →
    sheetsCallAux f rem attempt delay sleeps
      = ⟨outcomeOf (f (attempt + j)), attempt + j + 1,
         sleeps ++ (List.range j).map (fun i => delay * 2 ^ i)⟩ := by
  intro j
  induction j with
  | zero =>
    intro rem attempt delay sleeps hj hfail hstop
    simp only [Nat.add_zero, List.range_zero, List.map_nil, List.append_nil]
    rcases hstop with hrem | hnr
    · subst hrem
      rw [sheetsCallAux]
      cases hf : f attempt <;> simp [outcomeOf]
    · cases rem with
      | zero =>
        rw [sheetsCallAux]
        cases hf : f attempt <;> simp [outcomeOf]
      | succ r =>
        rw [sheetsCallAux]
        cases hf : f attempt with
        | ok a => simp [outcomeOf]
        | apiErr c =>
          rw [Nat.add_zero, hf] at hnr
          simp only [isRetryableErr] at hnr
          simp [outcomeOf, hnr]
        | otherErr => simp [outcomeOf]
  | succ k ih =>
    intro rem attempt delay sleeps hj hfail hstop
    cases rem with
    | zero => omega
    | succ r =>
      have h0 : isRetryableErr (f (attempt + 0)) = true := hfail 0 (Nat.succ_pos k)
      rw [Nat.add_zero] at h0
      rw [sheetsCallAux]
      cases hf : f attempt with
      | ok a => rw [hf] at h0; simp [isRetryableErr] at h0
      | otherErr => rw [hf] at h0; simp [isRetryableErr] at h0
      | apiErr c =>
        rw [hf] at h0
        simp only [isRetryableErr] at h0
        dsimp only
        rw [if_pos h0]
        have hfail2 : ∀ i, i < k → isRetryableErr (f (attempt + 1 + i)) = true := by
          intro i hi
          have := hfail (i + 1) (by omega)
          rwa [show attempt + (i + 1) = attempt + 1 + i by omega] at this
        have hstop2 : k = r ∨ isRetryableErr (f (attempt + 1 + k)) = false := by
          rcases hstop with h | h
          · left; omega
          · right; rwa [show attempt + (k + 1) = attempt + 1 + k by omega] at h
        rw [ih r (attempt + 1) (delay * 2) (sleeps ++ [delay]) (by omega) hfail2 hstop2]
        have hidx : attempt + 1 + k = attempt + (k + 1) := by omega
        have hsl : (sleeps ++ [delay]) ++ (List.range k).map (fun i => delay * 2 * 2 ^ i)
            = sleeps ++ (List.range (k + 1)).map (fun i => delay * 2 ^ i) := by
          rw [List.append_assoc, List.range_succ_eq_map, List.map_cons, List.map_map]
          have hfn : (fun i => delay * 2 ^ i) ∘ Nat.succ = fun i => delay * 2 * 2 ^ i := by
            funext i
            simp only [Function.comp]
            rw [pow_succ]
            ring
          rw [hfn, pow_zero, mul_one]
          rfl
        rw [hidx, hsl]

/-- C9 counterexample: the claim allows at most 3 additional attempts
(4 invocations in total), but with four consecutive 429 responses the
wrapper invokes the callable a fifth time — the unguarded final call —
and that call's success is returned after sleeps 0.5, 1, 2, 4. -/
theorem sheets_call_retry_cex :
    sheetsCall cexF = ⟨.value 7, 5, [1 / 2, 1, 2, 4]⟩ ∧
    ¬ (sheetsCall cexF).calls ≤ 4 := by
  refine ⟨by decide, by decide⟩

/-- C9 (amended): a rate-limit (429) or transient server (500, 502, 503,
504) response is retried up to 4 additional times — four guarded
attempts with exponential backoff sleeping 0.5 s, 1 s, 2 s, 4 s, then
one final unguarded attempt — and any other error propagates
immediately without retry: whenever the first `j ≤ 4` invocations fail
retryably and invocation `j` is where the wrapper stops (its result is
a success or a non-retryable error, or `j = 4` so the guarded attempts
are exhausted and even a retryable failure propagates), the wrapper
makes exactly `j + 1` invocations, sleeps the first `j` backoff
durations, and yields invocation `j`'s result. -/
theorem sheets_call_retry_policy (α : Type) (f : ℕ → CallRes α) (j : ℕ)
    (hj : j ≤ 4)
    (hfail : ∀ i, i < j → isRetryableErr (f i) = true)
    (hstop : j = 4 ∨ isRetryableErr (f j) = false) :
    sheetsCall f = ⟨outcomeOf (f j), j + 1, geomSleeps j⟩ := by
  have h := sheetsCallAux_shift f j 4 0 (1 / 2) [] hj
    (by intro i hi; rw [Nat.zero_add]; exact hfail i hi)
    (by rcases hstop with h | h; exact Or.inl h; right; rwa [Nat.zero_add])
  rw [sheetsCall, h, Nat.zero_add, List.nil_append, geomSleeps]

/-- Witness for the amended C9 theorem: on `cexF` (four 429 responses
then a success) the wrapper stops at invocation 4 with its value, five
invocations in total. -/
theorem sheets_call_retry_policy_witness :
    sheetsCall cexF = ⟨outcomeOf (cexF 4), 4 + 1, geomSleeps 4⟩ :=
  sheets_call_retry_policy ℕ cexF 4 (by decide) (by decide) (Or.inl rfl)

end SnapshotBot
